import Mathlib

/-!
Verification of the homeworkpal document-structuring and retrieval pipeline.

Shallow embedding of the algorithmic core of the repository:
* `src/playroom/simple_text_splitter.py` — recursive separator-cascade text splitter;
* `src/homeworkpal/document/chinese_text_processor.py` — pinyin repair,
  embedding preprocessing, quality scoring, batched vectorization;
* `src/homeworkpal/document/chinese_textbook_analyzer.py` — directory parsing and
  content-to-lesson assignment;
* `src/homeworkpal/rag/rag_service.py` — search error discipline and hybrid fusion;
* `src/textbook_processing/ingestion/ingest_textbooks_structured.py` — hash-deduplicated
  persistence.

Strings are modelled as `List Char`, floats as `ℚ`, and fallible Python code as
`Except`-valued functions.  External collaborators (embedding API, SQL store) are
modelled as explicit outcome values passed to the embedded functions.
-/

set_option maxRecDepth 8192

/-- Python `range(0, stop, step)` as a list of start offsets.  A `step` of `0`
raises `ValueError` in Python; it is modelled as the empty list and is unreachable
under the hypotheses of the claims that use it (`max_chunk_size > overlap`). -/
def pythonRange (stop step : Nat) : List Nat :=
  if step = 0 then [] else (List.range ((stop + step - 1) / step)).map (fun k => k * step)

/-- One scanning step of Python `str.split(sep)` for a non-empty separator, with
explicit fuel (the fuel is instantiated with the string length, which bounds the
number of steps).  `acc` holds the current piece reversed. -/
def splitSepGo (sep : List Char) : Nat → List Char → List Char → List (List Char)
  | 0, s, acc => [acc.reverse ++ s]
  | fuel + 1, s, acc =>
    match s with
    | [] => [acc.reverse]
    | c :: rest =>
      if sep ≠ [] ∧ sep.isPrefixOf (c :: rest) then
        acc.reverse :: splitSepGo sep fuel (List.drop sep.length (c :: rest)) []
      else
        splitSepGo sep fuel rest (c :: acc)

/-- Python `s.split(sep)` for a non-empty separator `sep`. -/
def pySplit (sep : List Char) (s : List Char) : List (List Char) :=
  splitSepGo sep s.length s []

/-- Character-level fallback of `SimpleTextSplitter.split_text`
(`simple_text_splitter.py` lines 49-53): fixed windows of `chunkSize` characters
taken every `chunkSize - overlap` characters. -/
def charLevelSplit (chunkSize overlap : Nat) (content : List Char) : List (List Char) :=
  (pythonRange content.length (chunkSize - overlap)).map
    (fun i => (content.drop i).take chunkSize)

/-- The greedy accumulation loop of `SimpleTextSplitter.split_text`
(lines 61-75): pieces are joined with the separator while the joined buffer
stays within `chunkSize`; on overflow the buffer is flushed and restarted with
the overflowing piece.  Mirrors Python truthiness: an empty buffer is joined
without the separator and is never flushed. -/
def greedyMergeGo (chunkSize : Nat) (sep : List Char) :
    List (List Char) → List Char → List (List Char)
  | [], current => if current.isEmpty then [] else [current]
  | part :: rest, current =>
    let test := if current.isEmpty then part else current ++ sep ++ part
    if test.length ≤ chunkSize then
      greedyMergeGo chunkSize sep rest test
    else
      (if current.isEmpty then [] else [current]) ++ greedyMergeGo chunkSize sep rest part

/-- Greedy merge of split pieces, starting from an empty buffer. -/
def greedyMerge (chunkSize : Nat) (sep : List Char) (parts : List (List Char)) :
    List (List Char) :=
  greedyMergeGo chunkSize sep parts []

/-- `recursive_split` of `SimpleTextSplitter.split_text` (lines 44-85): split on the
highest-priority separator, greedily merge, and recurse into the next separator
level for any piece still longer than `chunkSize`; with no separators left, fall
back to the character-level split. -/
def recursiveSplit (chunkSize overlap : Nat) : List (List Char) → List Char → List (List Char)
  | [], content =>
    if content.length ≤ chunkSize then [content]
    else charLevelSplit chunkSize overlap content
  | sep :: rest, content =>
    if content.length ≤ chunkSize then [content]
    else
      let parts := pySplit sep content
      if parts.length = 1 then recursiveSplit chunkSize overlap rest content
      else
        ((greedyMerge chunkSize sep parts).map
          (fun c =>
            if chunkSize < c.length then recursiveSplit chunkSize overlap rest c
            else [c])).flatten

/-- The separator cascade of `SimpleTextSplitter.split_text` (line 41). -/
def splitterSeparators : List (List Char) :=
  [['\n', '\n'], ['\n'], ['。'], ['！'], ['？'], ['；'], ['，'], [' ']]

/-- `SimpleTextSplitter.split_text` (lines 27-87). -/
def splitText (chunkSize overlap : Nat) (text : List Char) : List (List Char) :=
  if text.isEmpty then []
  else if text.length ≤ chunkSize then [text]
  else recursiveSplit chunkSize overlap splitterSeparators text

theorem charLevelSplit_length_le (chunkSize overlap : Nat) (content : List Char)
    (c : List Char) (hc : c ∈ charLevelSplit chunkSize overlap content) :
    c.length ≤ chunkSize := by
  rcases List.mem_map.1 hc with ⟨i, _, rfl⟩
  exact List.length_take_le _ _

theorem recursiveSplit_length_le (chunkSize overlap : Nat) :
    ∀ (seps : List (List Char)) (content : List Char),
      ∀ c ∈ recursiveSplit chunkSize overlap seps content, c.length ≤ chunkSize := by
  intro seps
  induction seps with
  | nil =>
    intro content c hc
    by_cases h : content.length ≤ chunkSize
    · simp only [recursiveSplit, if_pos h, List.mem_singleton] at hc
      subst hc; exact h
    · simp only [recursiveSplit, if_neg h] at hc
      exact charLevelSplit_length_le _ _ _ _ hc
  | cons sep rest ih =>
    intro content c hc
    by_cases h : content.length ≤ chunkSize
    · simp only [recursiveSplit, if_pos h, List.mem_singleton] at hc
      subst hc; exact h
    · simp only [recursiveSplit, if_neg h] at hc
      by_cases h1 : (pySplit sep content).length = 1
      · rw [if_pos h1] at hc
        exact ih content c hc
      · rw [if_neg h1] at hc
        rcases List.mem_flatten.1 hc with ⟨l, hl, hcl⟩
        rcases List.mem_map.1 hl with ⟨piece, _, rfl⟩
        by_cases h2 : chunkSize < piece.length
        · rw [if_pos h2] at hcl
          exact ih piece c hcl
        · rw [if_neg h2] at hcl
          rcases List.mem_singleton.1 hcl with rfl
          exact Nat.le_of_not_lt h2

theorem charLevelSplit_getElem (chunkSize overlap : Nat) (content : List Char)
    (h : overlap < chunkSize) (j : Nat) (ck : List Char)
    (hj : (charLevelSplit chunkSize overlap content)[j]? = some ck) :
    ck.length = min chunkSize (content.length - j * (chunkSize - overlap)) := by
  have hstep : chunkSize - overlap ≠ 0 := by omega
  simp only [charLevelSplit, pythonRange, if_neg hstep, List.map_map,
    List.getElem?_map] at hj
  by_cases hjn : j < (content.length + (chunkSize - overlap) - 1) / (chunkSize - overlap)
  · rw [List.getElem?_range hjn] at hj
    simp only [Option.map_some', Option.some.injEq, Function.comp_apply] at hj
    subst hj
    simp [List.length_take, List.length_drop]
  · rw [List.getElem?_eq_none (by simpa using Nat.le_of_not_lt hjn)] at hj
    simp at hj

theorem charLevelSplit_len (chunkSize overlap : Nat) (content : List Char)
    (h : chunkSize - overlap ≠ 0) :
    (charLevelSplit chunkSize overlap content).length =
      (content.length + (chunkSize - overlap) - 1) / (chunkSize - overlap) := by
  simp [charLevelSplit, pythonRange, if_neg h]

theorem charLevelSplit_getElem_full (chunkSize : Nat) (content : List Char)
    (hcs : 0 < chunkSize) (hlong : chunkSize < content.length) (j : Nat) (ck : List Char)
    (hjlt : j + 1 < (charLevelSplit chunkSize 0 content).length)
    (hj : (charLevelSplit chunkSize 0 content)[j]? = some ck) :
    ck.length = chunkSize := by
  have h0 : (0 : Nat) < chunkSize := hcs
  have hlen := charLevelSplit_len chunkSize 0 content (by omega)
  have hck := charLevelSplit_getElem chunkSize 0 content h0 j ck hj
  rw [hlen, Nat.sub_zero] at hjlt
  -- from j + 2 ≤ ceil(len / cs) deduce (j + 1) * cs < len
  have hmul : (j + 2) * chunkSize ≤ content.length + chunkSize - 1 :=
    (Nat.le_div_iff_mul_le h0).1 (by omega)
  rw [Nat.sub_zero] at hck
  have e1 : (j + 2) * chunkSize = j * chunkSize + 2 * chunkSize := by ring
  rw [e1] at hmul
  generalize hp : j * chunkSize = p at hck hmul
  omega

/-- C6 (amended): for `max_chunk_size > overlap ≥ 0`, every chunk produced by
`SimpleTextSplitter.split_text` has length at most `max_chunk_size`; every
character-level-fallback chunk has length `min max_chunk_size (len − i)` where `i`
is its start offset (so every chunk whose window fits inside the text is exactly
`max_chunk_size` long, and only trailing chunks whose window reaches past the end
are shorter); when `overlap = 0` the last chunk is the only one that can be short. -/
theorem splitText_chunk_size_bound (chunkSize overlap : Nat) (text : List Char)
    (h : overlap < chunkSize) :
    (∀ c ∈ splitText chunkSize overlap text, c.length ≤ chunkSize)
    ∧ (∀ content : List Char, ∀ j ck,
        (charLevelSplit chunkSize overlap content)[j]? = some ck →
        ck.length = min chunkSize (content.length - j * (chunkSize - overlap)))
    ∧ (overlap = 0 → ∀ content : List Char, chunkSize < content.length →
        ∀ j ck, j + 1 < (charLevelSplit chunkSize overlap content).length →
          (charLevelSplit chunkSize overlap content)[j]? = some ck →
          ck.length = chunkSize) := by
  refine ⟨?_, ?_, ?_⟩
  · intro c hc
    unfold splitText at hc
    by_cases h0 : text.isEmpty
    · simp [h0] at hc
    · rw [if_neg h0] at hc
      by_cases h1 : text.length ≤ chunkSize
      · simp only [if_pos h1, List.mem_singleton] at hc
        subst hc; exact h1
      · rw [if_neg h1] at hc
        exact recursiveSplit_length_le chunkSize overlap splitterSeparators text c hc
  · intro content j ck hj
    exact charLevelSplit_getElem chunkSize overlap content h j ck hj
  · rintro rfl content hlong j ck hjlt hj
    exact charLevelSplit_getElem_full chunkSize content (by omega) hlong j ck hjlt hj

/-- Witness for C6's theorem at `max_chunk_size = 3`, `overlap = 1`,
`text = "abcde"`. -/
theorem splitText_chunk_size_bound_witness :
    (1 : Nat) < 3 ∧
      ((∀ c ∈ splitText 3 1 ['a', 'b', 'c', 'd', 'e'], c.length ≤ 3)
      ∧ (∀ content : List Char, ∀ j ck,
          (charLevelSplit 3 1 content)[j]? = some ck →
          ck.length = min 3 (content.length - j * (3 - 1)))
      ∧ ((1 : Nat) = 0 → ∀ content : List Char, 3 < content.length →
          ∀ j ck, j + 1 < (charLevelSplit 3 1 content).length →
            (charLevelSplit 3 1 content)[j]? = some ck →
            ck.length = 3)) :=
  ⟨by decide, splitText_chunk_size_bound 3 1 ['a', 'b', 'c', 'd', 'e'] (by decide)⟩

/-- C6 counterexample: with `max_chunk_size = 10 > overlap = 2 ≥ 0` and a
17-character text containing no separator characters, the character-level
fallback produces chunks of lengths 10, 9, 1 — the second chunk is not the last
one, yet it is shorter than `max_chunk_size`, refuting "exactly `max_chunk_size`
characters long except possibly the last one". -/
theorem splitText_fallback_short_counterexample :
    (splitText 10 2 (List.replicate 17 'a')).map List.length = [10, 9, 1] := by decide

/-! ### Ingestion persistence with content-hash deduplication
(`ingest_textbooks_structured.py`, `save_structured_to_database`, lines 264-353) -/

/-- A chunk record as passed to `save_structured_to_database`; only the fields the
deduplication logic reads are carried (`content`, `content_hash`); the store is a
list of such records. -/
structure LessonChunkData where
  content : String
  content_hash : String
deriving DecidableEq, Repr

/-- `save_structured_to_database` (lines 282-296, 318-343): query the hashes already
present in the store among the incoming records' hashes, drop every incoming record
whose hash is already present, and insert the remainder.  Returns the store after
the call. -/
def saveStructuredToDatabase (store lessonData : List LessonChunkData) :
    List LessonChunkData :=
  let incoming := lessonData.map (·.content_hash)
  let existingHashes :=
    (store.map (·.content_hash)).filter (fun h => decide (h ∈ incoming))
  let newChunks :=
    lessonData.filter (fun d => decide (d.content_hash ∉ existingHashes))
  store ++ newChunks

theorem saveStructured_hash_mem (store lessonData : List LessonChunkData)
    (d : LessonChunkData) (hd : d ∈ lessonData) :
    d.content_hash ∈ (saveStructuredToDatabase store lessonData).map (·.content_hash) := by
  simp only [saveStructuredToDatabase, List.map_append, List.mem_append]
  by_cases hm : d.content_hash ∈ store.map (·.content_hash)
  · exact Or.inl hm
  · refine Or.inr ?_
    refine List.mem_map.2 ⟨d, ?_, rfl⟩
    refine List.mem_filter.2 ⟨hd, ?_⟩
    simp only [decide_eq_true_eq]
    intro hcon
    exact hm (List.mem_filter.1 hcon).1

/-- C8: re-running the persistence step on the identical record set against a store
already containing the first run's records inserts zero new records: the store is
unchanged, so the persisted record count equals the count after a single run. -/
theorem saveStructured_idempotent (store lessonData : List LessonChunkData) :
    saveStructuredToDatabase (saveStructuredToDatabase store lessonData) lessonData
        = saveStructuredToDatabase store lessonData
    ∧ (saveStructuredToDatabase (saveStructuredToDatabase store lessonData)
        lessonData).length
        = (saveStructuredToDatabase store lessonData).length := by
  have hnil :
      lessonData.filter
        (fun d => decide (d.content_hash ∉
          ((saveStructuredToDatabase store lessonData).map (·.content_hash)).filter
            (fun h => decide (h ∈ lessonData.map (·.content_hash))))) = [] := by
    rw [List.filter_eq_nil_iff]
    intro d hd
    simp only [decide_eq_true_eq, Decidable.not_not, not_not]
    refine List.mem_filter.2 ⟨saveStructured_hash_mem store lessonData d hd, ?_⟩
    simp only [decide_eq_true_eq]
    exact List.mem_map.2 ⟨d, hd, rfl⟩
  constructor
  · show (saveStructuredToDatabase store lessonData) ++ _ = _
    rw [hnil, List.append_nil]
  · show ((saveStructuredToDatabase store lessonData) ++ _).length = _
    rw [hnil, List.append_nil]

/-! ### Content-to-lesson assignment
(`chinese_textbook_analyzer.py`, `_assign_content_to_lessons`, lines 396-426) -/

/-- Python substring test `pat in s`. -/
def containsSub (pat : List Char) : List Char → Bool
  | [] => pat.isEmpty
  | c :: rest => pat.isPrefixOf (c :: rest) || containsSub pat rest

/-- A content chunk as seen by the analyzer: its page number (`page_number`, with
Python's `.get('page_number', 0)` default folded in) and its text. -/
structure PageChunk where
  page_number : Int
  content : String
deriving DecidableEq, Repr

/-- The `LessonInfo` dataclass of `chinese_textbook_analyzer.py` (lines 16-29). -/
structure LessonInfo where
  unit_number : Int
  unit_title : String
  lesson_number : Int
  lesson_title : String
  start_page : Int
  end_page : Option Int := none
  content_chunks : List PageChunk := []
deriving DecidableEq, Repr

/-- Section labels checked by `_is_content_from_other_lesson` (line 441). -/
def sectionLabels : List String := ["口语交际", "习作", "语文园地", "习作例文"]

/-- `_is_content_from_other_lesson` (lines 428-446).  Only `lesson_title` and
`unit_title` of the lesson list are read, and those fields are never mutated by
the assignment loop, so passing the original lesson list is faithful. -/
def isContentFromOtherLesson (content : String) (currentLesson : LessonInfo)
    (allLessons : List LessonInfo) : Bool :=
  allLessons.any (fun l =>
      decide (l.lesson_title ≠ currentLesson.lesson_title)
        && containsSub l.lesson_title.data content.data)
    || (containsSub "单元".data content.data
        && !containsSub currentLesson.unit_title.data content.data)
    || sectionLabels.any (fun s =>
        containsSub s.data content.data
          && !containsSub currentLesson.unit_title.data content.data)

/-- Python `max(chunk.get('page_number', 0) for chunk in chunks)`; only evaluated on
a non-empty list in the source (guarded by `if lesson.content_chunks:`). -/
def maxChunkPage : List PageChunk → Int
  | [] => 0
  | c :: rest => rest.foldl (fun m x => max m x.page_number) c.page_number

/-- The chunk-selection condition of `_assign_content_to_lessons` (lines 409-421):
a chunk is assigned when it lies in the lesson's page range and either carries the
lesson title on the lesson's start page or is a later page not recognized as
other-lesson content. -/
def assignPred (allLessons : List LessonInfo) (lesson : LessonInfo) (endRange : Int)
    (c : PageChunk) : Bool :=
  decide (lesson.start_page ≤ c.page_number) && decide (c.page_number ≤ endRange) &&
    (if c.page_number = lesson.start_page then
      containsSub lesson.lesson_title.data c.content.data
    else if lesson.start_page < c.page_number then
      !isContentFromOtherLesson c.content lesson allLessons
    else false)

/-- The per-lesson body of `_assign_content_to_lessons` (lines 399-426): collect the
chunks selected by `assignPred`, append them to the lesson, then set `end_page` to
the maximal assigned page (left unchanged when nothing is assigned). -/
def assignLesson (chunks : List PageChunk) (allLessons : List LessonInfo)
    (lesson : LessonInfo) (endRange : Int) : LessonInfo :=
  let assigned := chunks.filter (assignPred allLessons lesson endRange)
  let cc := lesson.content_chunks ++ assigned
  { lesson with
    content_chunks := cc
    end_page := if cc.isEmpty then lesson.end_page else some (maxChunkPage cc) }

/-- The enumeration loop of `_assign_content_to_lessons`: each lesson's page range
ends just before the next lesson's `start_page` (999 for the last lesson). -/
def assignGo (chunks : List PageChunk) (allLessons : List LessonInfo) :
    List LessonInfo → List LessonInfo
  | [] => []
  | lesson :: rest =>
    let endRange : Int := match rest.head? with
      | some nextLesson => nextLesson.start_page - 1
      | none => 999
    assignLesson chunks allLessons lesson endRange :: assignGo chunks allLessons rest

/-- `_assign_content_to_lessons` (lines 396-426). -/
def assignContentToLessons (chunks : List PageChunk) (lessons : List LessonInfo) :
    List LessonInfo :=
  assignGo chunks lessons lessons

theorem le_maxChunkPage_foldl (l : List PageChunk) :
    ∀ (init : Int), init ≤ l.foldl (fun m x => max m x.page_number) init
      ∧ ∀ c ∈ l, c.page_number ≤ l.foldl (fun m x => max m x.page_number) init := by
  induction l with
  | nil => intro init; exact ⟨le_refl _, by simp⟩
  | cons c rest ih =>
    intro init
    refine ⟨?_, ?_⟩
    · exact le_trans (le_max_left _ _) (ih (max init c.page_number)).1
    · intro x hx
      rcases List.mem_cons.1 hx with rfl | hx
      · exact le_trans (le_max_right _ _) (ih (max init x.page_number)).1
      · exact (ih (max init c.page_number)).2 x hx

theorem assignLesson_invariant (chunks : List PageChunk) (allLessons : List LessonInfo)
    (lesson : LessonInfo) (endRange : Int)
    (h0 : lesson.content_chunks = []) (h1 : lesson.end_page = none) :
    (∀ e, (assignLesson chunks allLessons lesson endRange).end_page = some e →
      (assignLesson chunks allLessons lesson endRange).start_page ≤ e)
    ∧ (∀ c ∈ (assignLesson chunks allLessons lesson endRange).content_chunks,
        (assignLesson chunks allLessons lesson endRange).start_page ≤ c.page_number) := by
  have hpred : ∀ c : PageChunk, assignPred allLessons lesson endRange c = true →
      lesson.start_page ≤ c.page_number := by
    intro c hc
    simp only [assignPred, Bool.and_assoc, Bool.and_eq_true, decide_eq_true_eq] at hc
    exact hc.1
  have hmem : ∀ c ∈ (assignLesson chunks allLessons lesson endRange).content_chunks,
      lesson.start_page ≤ c.page_number := by
    intro c hc
    simp only [assignLesson, h0, List.nil_append] at hc
    exact hpred c (List.mem_filter.1 hc).2
  constructor
  · intro e he
    simp only [assignLesson, h0, List.nil_append] at he ⊢
    by_cases hem : (chunks.filter (assignPred allLessons lesson endRange)).isEmpty
    · rw [if_pos hem, h1] at he
      exact absurd he (by simp)
    · rw [if_neg hem] at he
      have hsome := Option.some.inj he
      subst hsome
      rcases hne : chunks.filter (assignPred allLessons lesson endRange) with _ | ⟨c0, rest⟩
      · rw [hne] at hem; simp at hem
      · have hc0 : c0 ∈ chunks.filter (assignPred allLessons lesson endRange) := by
          rw [hne]; exact List.mem_cons_self _ _
        have hle : lesson.start_page ≤ c0.page_number :=
          hpred c0 (List.mem_filter.1 hc0).2
        calc lesson.start_page ≤ c0.page_number := hle
          _ ≤ _ := by
            simpa [maxChunkPage] using (le_maxChunkPage_foldl rest c0.page_number).1
  · intro c hc
    exact hmem c hc

/-- C9: after `_assign_content_to_lessons` runs (on lessons that start with no
assigned chunks and no `end_page`, as produced by lesson extraction), every lesson
with a non-null `end_page` satisfies `start_page ≤ end_page`, and every chunk
assigned to a lesson lies at or after the lesson's `start_page` — in whatever
order the lesson list was discovered. -/
theorem assignContent_lesson_span_invariant (chunks : List PageChunk)
    (lessons : List LessonInfo)
    (hinit : ∀ l ∈ lessons, l.content_chunks = [] ∧ l.end_page = none) :
    ∀ l' ∈ assignContentToLessons chunks lessons,
      (∀ e, l'.end_page = some e → l'.start_page ≤ e)
      ∧ (∀ c ∈ l'.content_chunks, l'.start_page ≤ c.page_number) := by
  have main : ∀ (proc : List LessonInfo),
      (∀ l ∈ proc, l.content_chunks = [] ∧ l.end_page = none) →
      ∀ l' ∈ assignGo chunks lessons proc,
        (∀ e, l'.end_page = some e → l'.start_page ≤ e)
        ∧ (∀ c ∈ l'.content_chunks, l'.start_page ≤ c.page_number) := by
    intro proc
    induction proc with
    | nil => intro _ l' hl'; simp [assignGo] at hl'
    | cons lesson rest ih =>
      intro hp l' hl'
      simp only [assignGo, List.mem_cons] at hl'
      rcases hl' with rfl | hl'
      · exact assignLesson_invariant chunks lessons lesson _
          (hp lesson (List.mem_cons_self _ _)).1 (hp lesson (List.mem_cons_self _ _)).2
      · exact ih (fun l hl => hp l (List.mem_cons_of_mem _ hl)) l' hl'
  exact main lessons hinit

/-- Witness for C9's theorem: one lesson starting at page 5 and one chunk on page 5
carrying the lesson title. -/
theorem assignContent_lesson_span_invariant_witness :
    (∀ l ∈ [({ unit_number := 1, unit_title := "第1单元", lesson_number := 1,
               lesson_title := "大青树下的小学", start_page := 5 } : LessonInfo)],
        l.content_chunks = [] ∧ l.end_page = none)
    ∧ ∀ l' ∈ assignContentToLessons
          [{ page_number := 5, content := "1 大青树下的小学 课文" }]
          [{ unit_number := 1, unit_title := "第1单元", lesson_number := 1,
             lesson_title := "大青树下的小学", start_page := 5 }],
        (∀ e, l'.end_page = some e → l'.start_page ≤ e)
        ∧ (∀ c ∈ l'.content_chunks, l'.start_page ≤ c.page_number) :=
  ⟨by decide, assignContent_lesson_span_invariant _ _ (by decide)⟩

/-! ### Retrieval error discipline
(`rag_service.py`, `RAGService.search` lines 92-118, `_generate_query_embedding`
lines 129-141, `_vector_similarity_search` lines 164-248, `_keyword_search`
lines 307-359).  The embedding client and the SQL store are external
collaborators; their outcomes are passed in explicitly. -/

inductive EmbedError where
  | missingCredentials
  | apiFailure
deriving DecidableEq, Repr

inductive StoreError where
  | queryFailed
  | connectionFailed
deriving DecidableEq, Repr

inductive RagError where
  | embedding (e : EmbedError)
  | dimensionMismatch (expected actual : Nat)
  | store (e : StoreError)
deriving DecidableEq, Repr

/-- A row returned by the store's similarity or keyword query. -/
structure SearchRow where
  id : Nat
  content : String
  row_score : ℚ
  source_file : Option String := none
  page_number : Option Int := none
deriving DecidableEq, Repr

/-- The `SearchResult` dataclass of `rag_service.py` (lines 23-42, without the
metadata mapping, which none of the verified paths reads). -/
structure SearchResult where
  content : String
  score : ℚ
  chunk_id : Nat
  source_file : Option String := none
  page_number : Option Int := none
deriving DecidableEq, Repr

def rowToResult (row : SearchRow) : SearchResult :=
  { content := row.content, score := row.row_score, chunk_id := row.id,
    source_file := row.source_file, page_number := row.page_number }

/-- `_generate_query_embedding` (lines 129-141): a failing embedding call is logged
and re-raised; an embedding whose dimension is not 1024 raises `ValueError`. -/
def generateQueryEmbedding (embedOutcome : Except EmbedError (List ℚ)) :
    Except RagError (List ℚ) :=
  match embedOutcome with
  | .error e => .error (.embedding e)
  | .ok v => if v.length ≠ 1024 then .error (.dimensionMismatch 1024 v.length) else .ok v

/-- `_vector_similarity_search` (lines 164-248): a failing store query is logged and
re-raised (lines 244-248); a successful one yields `SearchResult` rows. -/
def vectorSimilaritySearch (storeOutcome : Except StoreError (List SearchRow)) :
    Except RagError (List SearchResult) :=
  match storeOutcome with
  | .error e => .error (.store e)
  | .ok rows => .ok (rows.map rowToResult)

/-- `RAGService.search` (lines 92-118): embed the query, run the vector search; the
`except` clause at lines 116-118 logs and `raise`s, so every failure propagates. -/
def ragSearch (embedOutcome : Except EmbedError (List ℚ))
    (storeOutcome : Except StoreError (List SearchRow)) :
    Except RagError (List SearchResult) :=
  match generateQueryEmbedding embedOutcome with
  | .error e => .error e
  | .ok _ => vectorSimilaritySearch storeOutcome

/-- `_keyword_search` (lines 307-359): its `except` clause (lines 357-359) swallows
the failure and returns an empty list. -/
def keywordSearch (storeOutcome : Except StoreError (List SearchRow)) :
    List SearchResult :=
  match storeOutcome with
  | .error _ => []
  | .ok rows => rows.map rowToResult

/-- C3 counterexample: with a valid 1024-dimensional query embedding and a store
query that fails with a non-configuration error, `RAGService.search` raises (the
store error propagates) instead of returning the empty result list. -/
theorem ragSearch_store_failure_counterexample :
    ragSearch (.ok (List.replicate 1024 (0 : ℚ))) (.error .queryFailed)
        = .error (.store .queryFailed)
    ∧ ragSearch (.ok (List.replicate 1024 (0 : ℚ))) (.error .queryFailed)
        ≠ .ok ([] : List SearchResult) := by
  constructor
  · simp [ragSearch, generateQueryEmbedding, vectorSimilaritySearch]
  · simp [ragSearch, generateQueryEmbedding, vectorSimilaritySearch]

/-- C3 (amended): `RAGService.search` propagates every failure to the caller — the
configuration-class errors (missing credentials, query-embedding dimension ≠ 1024)
as the spec requires, but also any store-side search failure; it is only
`_keyword_search` that converts its internal failures into an empty result list. -/
theorem ragSearch_error_discipline (v w : List ℚ) (hv : v.length = 1024)
    (hw : w.length ≠ 1024) (serr : StoreError) (rows : List SearchRow) :
    ragSearch (.ok v) (.error serr) = .error (.store serr)
    ∧ ragSearch (.error .missingCredentials) (.ok rows)
        = .error (.embedding .missingCredentials)
    ∧ ragSearch (.ok w) (.ok rows) = .error (.dimensionMismatch 1024 w.length)
    ∧ keywordSearch (.error serr) = [] := by
  refine ⟨?_, ?_, ?_, ?_⟩
  · simp [ragSearch, generateQueryEmbedding, vectorSimilaritySearch, hv]
  · simp [ragSearch, generateQueryEmbedding]
  · simp [ragSearch, generateQueryEmbedding, hw]
  · simp [keywordSearch]

/-- Witness for C3's theorem at a 1024-dimensional zero vector, an empty
(wrong-dimension) vector, a failed store query and an empty row set. -/
theorem ragSearch_error_discipline_witness :
    (List.replicate 1024 (0 : ℚ)).length = 1024
    ∧ ([] : List ℚ).length ≠ 1024
    ∧ (ragSearch (.ok (List.replicate 1024 (0 : ℚ))) (.error .queryFailed)
          = .error (.store .queryFailed)
      ∧ ragSearch (.error .missingCredentials) (.ok ([] : List SearchRow))
          = .error (.embedding .missingCredentials)
      ∧ ragSearch (.ok ([] : List ℚ)) (.ok ([] : List SearchRow))
          = .error (.dimensionMismatch 1024 ([] : List ℚ).length)
      ∧ keywordSearch (.error .queryFailed) = []) :=
  ⟨by simp, by simp,
    ragSearch_error_discipline (List.replicate 1024 (0 : ℚ)) [] (by simp) (by simp)
      .queryFailed []⟩

/-! ### Batched vectorization retry loop
(`chinese_text_processor.py`, `batch_vectorize_with_quality_control`,
lines 331-367).  The embedding API is an external collaborator: an oracle maps
the index of each call to its outcome.  The `while` loop is modelled with
explicit fuel: a `none` result means the loop is still running after that many
iterations, so a genuinely terminating loop returns `some` for every
sufficiently large fuel. -/

/-- Outcome of one call to `embedding_model.embed_documents`. -/
inductive EmbedCallResult where
  | ok (embeddings : List (List ℚ))
  | exn
deriving DecidableEq

/-- The per-batch retry loop (lines 335-365): on a successful call the vectors are
accepted only when non-empty and 1024-dimensional — otherwise the loop repeats
*without* touching `retry_count`; on an exception `retry_count` is incremented and,
when it reaches `max_retries`, the batch is filled with zero-vectors.  Returns the
list extended onto `all_embeddings` for this batch, or `none` while still looping. -/
def batchRetryLoop (oracle : Nat → EmbedCallResult) (maxRetries batchLen : Nat) :
    Nat → Nat → Nat → Option (List (List ℚ))
  | 0, _, _ => none
  | fuel + 1, callIdx, retryCount =>
    if retryCount < maxRetries then
      match oracle callIdx with
      | .ok embeddings =>
        if embeddings ≠ [] ∧ (embeddings.headD []).length = 1024 then
          some embeddings
        else
          batchRetryLoop oracle maxRetries batchLen fuel (callIdx + 1) retryCount
      | .exn =>
        if retryCount + 1 < maxRetries then
          batchRetryLoop oracle maxRetries batchLen fuel (callIdx + 1) (retryCount + 1)
        else
          some (List.replicate batchLen (List.replicate 1024 (0 : ℚ)))
    else some []

/-- An embedding API that always returns, without raising, a single 1-dimensional
vector — a response whose dimension is not 1024. -/
def wrongDimOracle : Nat → EmbedCallResult := fun _ => .ok [[0]]

/-- C2: code bug — against an embedding function that keeps returning
wrong-dimension vectors without raising, the retry loop of
`batch_vectorize_with_quality_control` (default `max_retries = 3`,
`batch_size = 5`) never terminates: after any number of iterations it is still
running, because only the exception branch increments `retry_count`.  The claim's
bound of at most `max_retries` attempts per batch therefore fails. -/
theorem batchRetryLoop_wrongDim_never_terminates (fuel callIdx : Nat) :
    batchRetryLoop wrongDimOracle 3 5 fuel callIdx 0 = none := by
  induction fuel generalizing callIdx with
  | zero => rfl
  | succ n ih =>
    show batchRetryLoop wrongDimOracle 3 5 (n + 1) callIdx 0 = none
    rw [batchRetryLoop]
    simp only [wrongDimOracle]
    rw [if_pos (by norm_num)]
    rw [if_neg (by simp)]
    exact ih (callIdx + 1)

/-! ### Hybrid score fusion
(`rag_service.py`, `hybrid_search` lines 269-290 and `_combine_search_results`
lines 380-412).  Python dicts keyed by `chunk_id` are modelled as insertion-ordered
association lists with unique keys: assignment updates an existing key in place or
appends a new one; `sorted(..., reverse=True)` is stable, and is modelled by a
stable descending insertion sort (any two stable sorts agree pointwise). -/

/-- Python dict assignment `d[k] = v` on an insertion-ordered association list:
the first entry with key `k` is updated in place, otherwise `(k, v)` is appended. -/
def dictSet {κ α : Type} [DecidableEq κ] : List (κ × α) → κ → α → List (κ × α)
  | [], k, v => [(k, v)]
  | p :: rest, k, v => if p.1 = k then (k, v) :: rest else p :: dictSet rest k v

/-- Python dict lookup `d.get(k)`. -/
def dictGet? {κ α : Type} [DecidableEq κ] : List (κ × α) → κ → Option α
  | [], _ => none
  | p :: rest, k => if p.1 = k then some p.2 else dictGet? rest k

theorem dictGet?_dictSet {κ α : Type} [DecidableEq κ] (d : List (κ × α)) (k k' : κ)
    (v : α) :
    dictGet? (dictSet d k v) k' = if k = k' then some v else dictGet? d k' := by
  induction d with
  | nil =>
    simp [dictSet, dictGet?]
  | cons p rest ih =>
    by_cases hp : p.1 = k
    · simp only [dictSet, if_pos hp, dictGet?]
      by_cases h' : k = k'
      · subst h'; simp [hp]
      · rw [if_neg h', if_neg h', if_neg (hp ▸ h')]
    · simp only [dictSet, if_neg hp, dictGet?]
      by_cases h' : p.1 = k'
      · have : ¬ k = k' := fun h => hp (h ▸ h')
        rw [if_pos h', if_neg this, if_pos h']
      · rw [if_neg h', if_neg h', ih]

theorem mem_dictSet {κ α : Type} [DecidableEq κ] (d : List (κ × α)) (k : κ) (v : α)
    (q : κ × α) (hq : q ∈ dictSet d k v) : q = (k, v) ∨ q ∈ d := by
  induction d with
  | nil => simpa [dictSet] using hq
  | cons p rest ih =>
    by_cases hp : p.1 = k
    · simp only [dictSet, if_pos hp, List.mem_cons] at hq
      rcases hq with rfl | hq
      · exact Or.inl rfl
      · exact Or.inr (List.mem_cons_of_mem _ hq)
    · simp only [dictSet, if_neg hp, List.mem_cons] at hq
      rcases hq with rfl | hq
      · exact Or.inr (List.mem_cons_self _ _)
      · rcases ih hq with h | h
        · exact Or.inl h
        · exact Or.inr (List.mem_cons_of_mem _ h)

theorem mem_of_dictGet? {κ α : Type} [DecidableEq κ] (d : List (κ × α)) (k : κ) (v : α)
    (h : dictGet? d k = some v) : (k, v) ∈ d := by
  induction d with
  | nil => simp [dictGet?] at h
  | cons p rest ih =>
    simp only [dictGet?] at h
    by_cases hp : p.1 = k
    · rw [if_pos hp] at h
      rcases p with ⟨pk, pv⟩
      cases h
      cases hp
      exact List.mem_cons_self _ _
    · rw [if_neg hp] at h
      exact List.mem_cons_of_mem _ (ih h)

theorem dictGet?_of_mem_nodupKeys {κ α : Type} [DecidableEq κ] (d : List (κ × α))
    (hd : (d.map (·.1)).Nodup) (q : κ × α) (hq : q ∈ d) : dictGet? d q.1 = some q.2 := by
  induction d with
  | nil => simp at hq
  | cons p rest ih =>
    rcases List.mem_cons.1 hq with rfl | hq
    · simp [dictGet?]
    · have hne : p.1 ≠ q.1 := by
        intro hcon
        have : q.1 ∈ rest.map (·.1) := List.mem_map.2 ⟨q, hq, rfl⟩
        rw [List.map_cons] at hd
        exact (List.nodup_cons.1 hd).1 (hcon ▸ this)
      simp only [dictGet?, if_neg hne]
      exact ih ((List.nodup_cons.1 (by simpa using hd)).2) hq

theorem nodupKeys_dictSet {κ α : Type} [DecidableEq κ] (d : List (κ × α)) (k : κ) (v : α)
    (hd : (d.map (·.1)).Nodup) : ((dictSet d k v).map (·.1)).Nodup := by
  induction d with
  | nil => simp [dictSet]
  | cons p rest ih =>
    rw [List.map_cons, List.nodup_cons] at hd
    by_cases hp : p.1 = k
    · subst hp
      simpa [dictSet, List.nodup_cons] using hd
    · simp only [dictSet, if_neg hp, List.map_cons, List.nodup_cons]
      refine ⟨?_, ih hd.2⟩
      intro hcon
      rcases List.mem_map.1 hcon with ⟨q, hq, hq1⟩
      rcases mem_dictSet rest k v q hq with rfl | hmem
      · exact hp hq1.symm
      · exact hd.1 (List.mem_map.2 ⟨q, hmem, hq1⟩)

/-- Stable descending insertion by `combined_score`: a new element is placed before
the first strictly smaller score, hence after all earlier elements with an equal
score — the placement Python's stable `sorted(..., reverse=True)` gives elements
processed in order. -/
def insertScoreDesc (x : Nat × ℚ) : List (Nat × ℚ) → List (Nat × ℚ)
  | [] => [x]
  | y :: ys => if y.2 < x.2 then x :: y :: ys else y :: insertScoreDesc x ys

/-- Stable descending sort by score, modelling
`sorted(combined_scores.items(), key=lambda x: x[1], reverse=True)` (lines 400-404). -/
def sortScoreDesc (l : List (Nat × ℚ)) : List (Nat × ℚ) :=
  l.foldl (fun acc x => insertScoreDesc x acc) []

theorem mem_insertScoreDesc (x : Nat × ℚ) (l : List (Nat × ℚ)) (a : Nat × ℚ) :
    a ∈ insertScoreDesc x l ↔ a = x ∨ a ∈ l := by
  induction l with
  | nil => simp [insertScoreDesc]
  | cons y ys ih =>
    by_cases h : y.2 < x.2
    · simp [insertScoreDesc, if_pos h]
    · simp only [insertScoreDesc, if_neg h, List.mem_cons, ih]
      tauto

theorem sorted_insertScoreDesc (x : Nat × ℚ) (l : List (Nat × ℚ))
    (hl : l.Pairwise (fun a b => b.2 ≤ a.2)) :
    (insertScoreDesc x l).Pairwise (fun a b => b.2 ≤ a.2) := by
  induction l with
  | nil => simp [insertScoreDesc]
  | cons y ys ih =>
    rcases List.pairwise_cons.1 hl with ⟨hy, hys⟩
    by_cases h : y.2 < x.2
    · rw [insertScoreDesc, if_pos h]
      refine List.pairwise_cons.2 ⟨?_, hl⟩
      intro b hb
      rcases List.mem_cons.1 hb with rfl | hb
      · exact le_of_lt h
      · exact le_trans (hy b hb) (le_of_lt h)
    · rw [insertScoreDesc, if_neg h]
      refine List.pairwise_cons.2 ⟨?_, ih hys⟩
      intro b hb
      rcases (mem_insertScoreDesc x ys b).1 hb with rfl | hb
      · exact le_of_not_lt h
      · exact hy b hb

theorem sorted_sortScoreDesc (l : List (Nat × ℚ)) :
    (sortScoreDesc l).Pairwise (fun a b => b.2 ≤ a.2) := by
  have main : ∀ (l acc : List (Nat × ℚ)), acc.Pairwise (fun a b => b.2 ≤ a.2) →
      (l.foldl (fun acc x => insertScoreDesc x acc) acc).Pairwise (fun a b => b.2 ≤ a.2) := by
    intro l
    induction l with
    | nil => intro acc h; simpa using h
    | cons x xs ih =>
      intro acc h
      exact ih _ (sorted_insertScoreDesc x acc h)
  exact main l [] (by simp)

theorem mem_sortScoreDesc (l : List (Nat × ℚ)) (a : Nat × ℚ) :
    a ∈ sortScoreDesc l ↔ a ∈ l := by
  have main : ∀ (l acc : List (Nat × ℚ)) (a : Nat × ℚ),
      (a ∈ l.foldl (fun acc x => insertScoreDesc x acc) acc ↔ a ∈ acc ∨ a ∈ l) := by
    intro l
    induction l with
    | nil => intro acc a; simp
    | cons x xs ih =>
      intro acc a
      rw [List.foldl_cons, ih]
      rw [mem_insertScoreDesc]
      simp only [List.mem_cons]
      tauto
  simpa using main l [] a

theorem insertScoreDesc_append (x : Nat × ℚ) (l : List (Nat × ℚ))
    (h : ∀ y ∈ l, x.2 ≤ y.2) : insertScoreDesc x l = l ++ [x] := by
  induction l with
  | nil => simp [insertScoreDesc]
  | cons y ys ih =>
    rw [insertScoreDesc, if_neg (not_lt.2 (h y (List.mem_cons_self _ _)))]
    rw [ih (fun z hz => h z (List.mem_cons_of_mem _ hz))]
    simp

theorem sortScoreDesc_eq_self (l : List (Nat × ℚ))
    (hl : l.Pairwise (fun a b => b.2 ≤ a.2)) : sortScoreDesc l = l := by
  have main : ∀ (l acc : List (Nat × ℚ)),
      (acc ++ l).Pairwise (fun a b => b.2 ≤ a.2) →
      l.foldl (fun acc x => insertScoreDesc x acc) acc = acc ++ l := by
    intro l
    induction l with
    | nil => intro acc _; simp
    | cons x xs ih =>
      intro acc h
      rw [List.foldl_cons]
      have hx : ∀ y ∈ acc, x.2 ≤ y.2 := by
        intro y hy
        have := (List.pairwise_append.1 h).2.2 y hy x (List.mem_cons_self _ _)
        exact this
      rw [insertScoreDesc_append x acc hx]
      rw [ih (acc ++ [x]) (by simpa using h)]
      simp
  simpa using main l [] (by simpa using hl)

/-- The semantic-results loop of `_combine_search_results` (lines 384-388):
`combined_scores[id] = score * semantic_weight; chunk_data[id] = result`. -/
def combineSemantic (semanticResults : List SearchResult) (semanticWeight : ℚ) :
    List (Nat × ℚ) × List (Nat × SearchResult) :=
  semanticResults.foldl
    (fun st r => (dictSet st.1 r.chunk_id (r.score * semanticWeight),
                  dictSet st.2 r.chunk_id r))
    ([], [])

/-- The keyword-results loop body of `_combine_search_results` (lines 390-397):
an id already scored gains `score * keyword_weight`; a new id is entered with
`score * keyword_weight` and its record. -/
def combineKeywordStep (keywordWeight : ℚ)
    (st : List (Nat × ℚ) × List (Nat × SearchResult)) (r : SearchResult) :
    List (Nat × ℚ) × List (Nat × SearchResult) :=
  match dictGet? st.1 r.chunk_id with
  | some v => (dictSet st.1 r.chunk_id (v + r.score * keywordWeight), st.2)
  | none => (dictSet st.1 r.chunk_id (r.score * keywordWeight), dictSet st.2 r.chunk_id r)

/-- `_combine_search_results` (lines 380-412): run both loops, sort the score dict
descending (stably), truncate to `top_k`, and emit each record with its combined
score.  `chunk_data` holds every key of `combined_scores`, so the `none` branch of
the lookup is unreachable (Python would raise `KeyError` otherwise). -/
def combineSearchResults (semanticResults keywordResults : List SearchResult)
    (semanticWeight keywordWeight : ℚ) (topK : Nat) : List SearchResult :=
  let st := keywordResults.foldl (combineKeywordStep keywordWeight)
              (combineSemantic semanticResults semanticWeight)
  ((sortScoreDesc st.1).take topK).filterMap
    (fun p => (dictGet? st.2 p.1).map (fun r => { r with score := p.2 }))

/-- `hybrid_search` (lines 269-290) in the situation the claims address: the
semantic search succeeded (its result list is passed in) and the keyword search's
outcome is an explicit store outcome fed through `_keyword_search`. -/
def hybridSearch (semanticResults : List SearchResult)
    (keywordOutcome : Except StoreError (List SearchRow))
    (keywordWeight semanticWeight : ℚ) (topK : Nat) : List SearchResult :=
  combineSearchResults semanticResults (keywordSearch keywordOutcome)
    semanticWeight keywordWeight topK

/-- The score a result list assigns to a chunk id, zero when absent — the
specification's per-source term of the fusion formula. -/
def scoreIn (l : List SearchResult) (id : Nat) : ℚ :=
  match l.find? (fun r => decide (r.chunk_id = id)) with
  | some r => r.score
  | none => 0

theorem foldl_pair_eq {α β : Type} (f : α → SearchResult → α) (g : β → SearchResult → β) :
    ∀ (l : List SearchResult) (a : α) (b : β),
      l.foldl (fun (st : α × β) r => (f st.1 r, g st.2 r)) (a, b)
        = (l.foldl f a, l.foldl g b) := by
  intro l
  induction l with
  | nil => intro a b; rfl
  | cons r rest ih => intro a b; exact ih (f a r) (g b r)

theorem foldl_dictSet_lookup {β : Type} (f : SearchResult → β) :
    ∀ (l : List SearchResult) (acc : List (Nat × β)) (id : Nat),
      (l.map (·.chunk_id)).Nodup →
      dictGet? (l.foldl (fun d r => dictSet d r.chunk_id (f r)) acc) id =
        (match l.find? (fun r => decide (r.chunk_id = id)) with
         | some r => some (f r)
         | none => dictGet? acc id) := by
  intro l
  induction l with
  | nil => intro acc id _; rfl
  | cons r rest ih =>
    intro acc id hnd
    rw [List.map_cons, List.nodup_cons] at hnd
    rw [List.foldl_cons, ih _ id hnd.2]
    by_cases h : r.chunk_id = id
    · have hfind : rest.find? (fun q => decide (q.chunk_id = id)) = none :=
        List.find?_eq_none.2 (fun q hq => by
          simp only [decide_eq_true_eq]
          intro hq1
          exact hnd.1 (List.mem_map.2 ⟨q, hq, by rw [hq1, h]⟩))
      rw [List.find?_cons_of_pos _ (by simpa using h)]
      simp only [hfind]
      rw [dictGet?_dictSet, if_pos h]
    · rw [List.find?_cons_of_neg _ (by simpa using h)]
      rcases hfind : rest.find? (fun q => decide (q.chunk_id = id)) with _ | q
      · simp only [hfind]
        rw [dictGet?_dictSet, if_neg h]
      · simp only [hfind]

theorem combineKeyword_fst_lookup (keywordWeight : ℚ) :
    ∀ (kw : List SearchResult) (st : List (Nat × ℚ) × List (Nat × SearchResult)) (id : Nat),
      (kw.map (·.chunk_id)).Nodup →
      dictGet? (kw.foldl (combineKeywordStep keywordWeight) st).1 id =
        (match kw.find? (fun r => decide (r.chunk_id = id)) with
         | some r =>
            (match dictGet? st.1 id with
             | some v => some (v + r.score * keywordWeight)
             | none => some (r.score * keywordWeight))
         | none => dictGet? st.1 id) := by
  intro kw
  induction kw with
  | nil => intro st id _; rfl
  | cons r rest ih =>
    intro st id hnd
    rw [List.map_cons, List.nodup_cons] at hnd
    rw [List.foldl_cons, ih _ id hnd.2]
    by_cases h : r.chunk_id = id
    · have hfind : rest.find? (fun q => decide (q.chunk_id = id)) = none :=
        List.find?_eq_none.2 (fun q hq => by
          simp only [decide_eq_true_eq]
          intro hq1
          exact hnd.1 (List.mem_map.2 ⟨q, hq, by rw [hq1, h]⟩))
      rw [List.find?_cons_of_pos _ (by simpa using h)]
      simp only [hfind]
      subst h
      rw [combineKeywordStep]
      rcases hget : dictGet? st.1 r.chunk_id with _ | v
      · simp only []
        rw [dictGet?_dictSet, if_pos rfl]
      · simp only []
        rw [dictGet?_dictSet, if_pos rfl]
    · rw [List.find?_cons_of_neg _ (by simpa using h)]
      have hside : dictGet? (combineKeywordStep keywordWeight st r).1 id
          = dictGet? st.1 id := by
        rw [combineKeywordStep]
        rcases dictGet? st.1 r.chunk_id with _ | v
        · simp only []
          rw [dictGet?_dictSet, if_neg h]
        · simp only []
          rw [dictGet?_dictSet, if_neg h]
      rcases hfind : rest.find? (fun q => decide (q.chunk_id = id)) with _ | q
      · simp only [hfind]
        exact hside
      · simp only [hfind, hside]

theorem nodupKeys_foldl_dictSet {β : Type} (f : SearchResult → β) :
    ∀ (l : List SearchResult) (acc : List (Nat × β)),
      (acc.map (·.1)).Nodup →
      (((l.foldl (fun d r => dictSet d r.chunk_id (f r)) acc)).map (·.1)).Nodup := by
  intro l
  induction l with
  | nil => intro acc h; simpa using h
  | cons r rest ih =>
    intro acc h
    exact ih _ (nodupKeys_dictSet acc r.chunk_id (f r) h)

theorem keyConsistent_foldl_dictSet :
    ∀ (l : List SearchResult) (acc : List (Nat × SearchResult)),
      (∀ p ∈ acc, p.2.chunk_id = p.1) →
      ∀ p ∈ l.foldl (fun d r => dictSet d r.chunk_id r) acc, p.2.chunk_id = p.1 := by
  intro l
  induction l with
  | nil => intro acc h; simpa using h
  | cons r rest ih =>
    intro acc h
    refine ih _ ?_
    intro p hp
    rcases mem_dictSet acc r.chunk_id r p hp with rfl | hmem
    · rfl
    · exact h p hmem

theorem nodupKeys_keywordFold (keywordWeight : ℚ) :
    ∀ (kw : List SearchResult) (st : List (Nat × ℚ) × List (Nat × SearchResult)),
      (st.1.map (·.1)).Nodup →
      (((kw.foldl (combineKeywordStep keywordWeight) st)).1.map (·.1)).Nodup := by
  intro kw
  induction kw with
  | nil => intro st h; simpa using h
  | cons r rest ih =>
    intro st h
    refine ih _ ?_
    rw [combineKeywordStep]
    rcases dictGet? st.1 r.chunk_id with _ | v
    · exact nodupKeys_dictSet st.1 r.chunk_id _ h
    · exact nodupKeys_dictSet st.1 r.chunk_id _ h

theorem keyConsistent_keywordFold (keywordWeight : ℚ) :
    ∀ (kw : List SearchResult) (st : List (Nat × ℚ) × List (Nat × SearchResult)),
      (∀ p ∈ st.2, p.2.chunk_id = p.1) →
      ∀ p ∈ (kw.foldl (combineKeywordStep keywordWeight) st).2, p.2.chunk_id = p.1 := by
  intro kw
  induction kw with
  | nil => intro st h; simpa using h
  | cons r rest ih =>
    intro st h
    refine ih _ ?_
    rw [combineKeywordStep]
    rcases dictGet? st.1 r.chunk_id with _ | v
    · intro p hp
      rcases mem_dictSet st.2 r.chunk_id r p hp with rfl | hmem
      · rfl
      · exact h p hmem
    · exact h

theorem pairwise_score_filterMap (g : Nat × ℚ → Option SearchResult)
    (hg : ∀ p r, g p = some r → r.score = p.2) :
    ∀ l : List (Nat × ℚ), l.Pairwise (fun p q => q.2 ≤ p.2) →
      (l.filterMap g).Pairwise (fun a b => b.score ≤ a.score) := by
  intro l
  induction l with
  | nil => intro _; simp
  | cons p rest ih =>
    intro h
    rcases List.pairwise_cons.1 h with ⟨hp, hrest⟩
    rw [List.filterMap_cons]
    rcases hgp : g p with _ | r
    · exact ih hrest
    · refine List.pairwise_cons.2 ⟨?_, ih hrest⟩
      intro b hb
      rcases List.mem_filterMap.1 hb with ⟨q, hq, hgq⟩
      rw [hg q b hgq, hg p r hgp]
      exact hp q hq

theorem combineSemantic_eq (w : ℚ) :
    ∀ (l : List SearchResult) (a : List (Nat × ℚ)) (b : List (Nat × SearchResult)),
      l.foldl (fun st r => (dictSet st.1 r.chunk_id (r.score * w),
          dictSet st.2 r.chunk_id r)) (a, b)
        = (l.foldl (fun d r => dictSet d r.chunk_id (r.score * w)) a,
           l.foldl (fun d r => dictSet d r.chunk_id r) b) := by
  intro l
  induction l with
  | nil => intro a b; rfl
  | cons r rest ih =>
    intro a b
    simp only [List.foldl_cons]
    exact ih _ _

theorem st_fst_lookup (semantic keyword : List SearchResult) (semW keyW : ℚ)
    (hsem : (semantic.map (·.chunk_id)).Nodup)
    (hkey : (keyword.map (·.chunk_id)).Nodup) (id : Nat) :
    dictGet? (keyword.foldl (combineKeywordStep keyW)
        (combineSemantic semantic semW)).1 id =
      (if id ∈ semantic.map (·.chunk_id) ∨ id ∈ keyword.map (·.chunk_id)
       then some (scoreIn semantic id * semW + scoreIn keyword id * keyW)
       else none) := by
  have hsemlook : dictGet? (combineSemantic semantic semW).1 id =
      (match semantic.find? (fun q => decide (q.chunk_id = id)) with
       | some rs => some (rs.score * semW)
       | none => none) := by
    rw [combineSemantic, combineSemantic_eq]
    rw [show ((semantic.foldl (fun d r => dictSet d r.chunk_id (r.score * semW)) [],
        semantic.foldl (fun d r => dictSet d r.chunk_id r) []) :
          List (Nat × ℚ) × List (Nat × SearchResult)).1
        = semantic.foldl (fun d r => dictSet d r.chunk_id (r.score * semW)) [] from rfl]
    rw [foldl_dictSet_lookup _ semantic [] id hsem]
    rcases semantic.find? (fun q => decide (q.chunk_id = id)) with _ | rs <;> rfl
  rw [combineKeyword_fst_lookup keyW keyword _ id hkey]
  have memOfFind : ∀ (l : List SearchResult) (q : SearchResult),
      l.find? (fun x => decide (x.chunk_id = id)) = some q → id ∈ l.map (·.chunk_id) := by
    intro l q hq
    have h1 := List.find?_some hq
    have h2 := List.mem_of_find?_eq_some hq
    simp only [decide_eq_true_eq] at h1
    exact List.mem_map.2 ⟨q, h2, h1⟩
  have notMemOfFind : ∀ (l : List SearchResult),
      l.find? (fun x => decide (x.chunk_id = id)) = none → id ∉ l.map (·.chunk_id) := by
    intro l hl hmem
    rcases List.mem_map.1 hmem with ⟨q, hq, hq1⟩
    have := List.find?_eq_none.1 hl q hq
    simp [hq1] at this
  rcases hfk : keyword.find? (fun q => decide (q.chunk_id = id)) with _ | rk <;>
    rcases hfs : semantic.find? (fun q => decide (q.chunk_id = id)) with _ | rs
  · simp only [hsemlook, hfs, hfk]
    rw [if_neg (by
      rintro (h | h)
      · exact notMemOfFind semantic hfs h
      · exact notMemOfFind keyword hfk h)]
  · simp only [hsemlook, hfs, hfk]
    rw [if_pos (Or.inl (memOfFind semantic rs hfs))]
    simp only [scoreIn, hfs, hfk]
    ring_nf
  · simp only [hsemlook, hfs, hfk]
    rw [if_pos (Or.inr (memOfFind keyword rk hfk))]
    simp only [scoreIn, hfs, hfk]
    ring_nf
  · simp only [hsemlook, hfs, hfk]
    rw [if_pos (Or.inl (memOfFind semantic rs hfs))]
    simp only [scoreIn, hfs, hfk]

/-- C7: every fused record's combined score is
`vector_score × vector_weight + keyword_score × keyword_weight` (a term being zero
when the record is absent from that source), the fused list is sorted descending
by combined score and truncated to `top_k`; and, concretely, with weights 0.7/0.3
a record present only in the keyword results with keyword score 0.8 receives
combined score 0.24.  Scores are modelled as exact rationals. -/
theorem combineResults_fusion (semantic keyword : List SearchResult)
    (semW keyW : ℚ) (topK : Nat)
    (hsem : (semantic.map (·.chunk_id)).Nodup)
    (hkey : (keyword.map (·.chunk_id)).Nodup) :
    (∀ r ∈ combineSearchResults semantic keyword semW keyW topK,
        r.score = scoreIn semantic r.chunk_id * semW + scoreIn keyword r.chunk_id * keyW)
    ∧ List.Pairwise (fun a b : SearchResult => b.score ≤ a.score)
        (combineSearchResults semantic keyword semW keyW topK)
    ∧ (combineSearchResults semantic keyword semW keyW topK).length ≤ topK
    ∧ combineSearchResults [] [{ content := "练习", score := 4/5, chunk_id := 1 }]
        (7/10) (3/10) 3
      = [{ content := "练习", score := 6/25, chunk_id := 1 }] := by
  have hcr : combineSearchResults semantic keyword semW keyW topK =
      ((sortScoreDesc (keyword.foldl (combineKeywordStep keyW)
          (combineSemantic semantic semW)).1).take topK).filterMap
        (fun p => (dictGet? (keyword.foldl (combineKeywordStep keyW)
            (combineSemantic semantic semW)).2 p.1).map
          (fun r => { r with score := p.2 })) := rfl
  have hfst : (combineSemantic semantic semW).1
      = semantic.foldl (fun d r => dictSet d r.chunk_id (r.score * semW)) [] := by
    rw [combineSemantic, combineSemantic_eq]
  have hsnd : (combineSemantic semantic semW).2
      = semantic.foldl (fun d r => dictSet d r.chunk_id r) [] := by
    rw [combineSemantic, combineSemantic_eq]
  have hnd1 : ((keyword.foldl (combineKeywordStep keyW)
      (combineSemantic semantic semW)).1.map (·.1)).Nodup := by
    apply nodupKeys_keywordFold
    rw [hfst]
    exact nodupKeys_foldl_dictSet _ semantic [] (by simp)
  have hkc : ∀ p ∈ (keyword.foldl (combineKeywordStep keyW)
      (combineSemantic semantic semW)).2, p.2.chunk_id = p.1 := by
    apply keyConsistent_keywordFold
    rw [hsnd]
    exact keyConsistent_foldl_dictSet semantic [] (by simp)
  refine ⟨?_, ?_, ?_, ?_⟩
  · intro r hr
    rw [hcr] at hr
    rcases List.mem_filterMap.1 hr with ⟨p, hpmem, hpf⟩
    rcases Option.map_eq_some'.1 hpf with ⟨r0, hr0, hr0eq⟩
    have hpin : p ∈ (keyword.foldl (combineKeywordStep keyW)
        (combineSemantic semantic semW)).1 :=
      (mem_sortScoreDesc _ p).1 (List.mem_of_mem_take hpmem)
    have hget := dictGet?_of_mem_nodupKeys _ hnd1 p hpin
    rw [st_fst_lookup semantic keyword semW keyW hsem hkey p.1] at hget
    have hcid : r.chunk_id = p.1 := by
      rw [← hr0eq]
      exact hkc (p.1, r0) (mem_of_dictGet? _ _ _ hr0)
    have hscore : r.score = p.2 := by rw [← hr0eq]
    by_cases hcond : p.1 ∈ semantic.map (·.chunk_id) ∨ p.1 ∈ keyword.map (·.chunk_id)
    · rw [if_pos hcond] at hget
      have := Option.some.inj hget
      rw [hscore, hcid, this]
    · rw [if_neg hcond] at hget
      exact absurd hget (by simp)
  · rw [hcr]
    refine pairwise_score_filterMap _ ?_ _ ?_
    · intro p r hg
      rcases Option.map_eq_some'.1 hg with ⟨r0, _, heq⟩
      rw [← heq]
    · exact List.Pairwise.sublist (List.take_sublist _ _) (sorted_sortScoreDesc _)
  · rw [hcr]
    exact le_trans (List.length_filterMap_le _ _) (List.length_take_le _ _)
  · norm_num [combineSearchResults, combineSemantic, combineKeywordStep, dictGet?,
      dictSet, sortScoreDesc, insertScoreDesc, List.filterMap_cons]

/-- Witness for C7's theorem at the spec's Scenario 5 inputs: no semantic results,
one keyword result with score 0.8, weights 0.7/0.3, `top_k = 3`. -/
theorem combineResults_fusion_witness :
    ((([] : List SearchResult).map (·.chunk_id)).Nodup)
    ∧ (([({ content := "练习", score := 4/5, chunk_id := 1 } : SearchResult)].map
          (·.chunk_id)).Nodup)
    ∧ ((∀ r ∈ combineSearchResults []
            [{ content := "练习", score := 4/5, chunk_id := 1 }] (7/10) (3/10) 3,
          r.score = scoreIn [] r.chunk_id * (7/10)
            + scoreIn [{ content := "练习", score := 4/5, chunk_id := 1 }]
                r.chunk_id * (3/10))
      ∧ List.Pairwise (fun a b : SearchResult => b.score ≤ a.score)
          (combineSearchResults []
            [{ content := "练习", score := 4/5, chunk_id := 1 }] (7/10) (3/10) 3)
      ∧ (combineSearchResults []
            [{ content := "练习", score := 4/5, chunk_id := 1 }] (7/10) (3/10) 3).length ≤ 3
      ∧ combineSearchResults [] [{ content := "练习", score := 4/5, chunk_id := 1 }]
          (7/10) (3/10) 3
        = [{ content := "练习", score := 6/25, chunk_id := 1 }]) :=
  ⟨by simp, by simp,
    combineResults_fusion [] [{ content := "练习", score := 4/5, chunk_id := 1 }]
      (7/10) (3/10) 3 (by simp) (by simp)⟩

theorem dictSet_append {κ α : Type} [DecidableEq κ] (d : List (κ × α)) (k : κ) (v : α)
    (h : k ∉ d.map (·.1)) : dictSet d k v = d ++ [(k, v)] := by
  induction d with
  | nil => rfl
  | cons p rest ih =>
    have hp : p.1 ≠ k := by
      intro hcon
      exact h (List.mem_map.2 ⟨p, List.mem_cons_self _ _, hcon⟩)
    rw [dictSet, if_neg hp, ih (fun hm => h (by
      rcases List.mem_map.1 hm with ⟨q, hq, hq1⟩
      exact List.mem_map.2 ⟨q, List.mem_cons_of_mem _ hq, hq1⟩))]
    rfl

theorem foldl_dictSet_map {β : Type} (f : SearchResult → β) :
    ∀ (l : List SearchResult) (acc : List (Nat × β)),
      (l.map (·.chunk_id)).Nodup →
      (∀ r ∈ l, r.chunk_id ∉ acc.map (·.1)) →
      l.foldl (fun d r => dictSet d r.chunk_id (f r)) acc
        = acc ++ l.map (fun r => (r.chunk_id, f r)) := by
  intro l
  induction l with
  | nil => intro acc _ _; simp
  | cons r rest ih =>
    intro acc hnd hdisj
    rw [List.map_cons, List.nodup_cons] at hnd
    rw [List.foldl_cons, dictSet_append acc r.chunk_id (f r)
      (hdisj r (List.mem_cons_self _ _))]
    rw [ih (acc ++ [(r.chunk_id, f r)]) hnd.2 ?_]
    · simp
    · intro q hq hmem
      rw [List.map_append, List.mem_append] at hmem
      rcases hmem with hmem | hmem
      · exact hdisj q (List.mem_cons_of_mem _ hq) hmem
      · simp only [List.map_cons, List.map_nil, List.mem_singleton] at hmem
        exact hnd.1 (hmem ▸ List.mem_map.2 ⟨q, hq, rfl⟩)

theorem combineSemantic_explicit (semantic : List SearchResult) (w : ℚ)
    (hnd : (semantic.map (·.chunk_id)).Nodup) :
    combineSemantic semantic w
      = (semantic.map (fun r => (r.chunk_id, r.score * w)),
         semantic.map (fun r => (r.chunk_id, r))) := by
  rw [combineSemantic, combineSemantic_eq]
  rw [foldl_dictSet_map _ semantic [] hnd (by simp)]
  rw [foldl_dictSet_map _ semantic [] hnd (by simp)]
  simp

theorem filterMap_lookup_scale (semW : ℚ) (cd : List (Nat × SearchResult)) :
    ∀ l : List SearchResult,
      (∀ r ∈ l, dictGet? cd r.chunk_id = some r) →
      (l.map (fun r => (r.chunk_id, r.score * semW))).filterMap
          (fun p => (dictGet? cd p.1).map (fun r0 => { r0 with score := p.2 }))
        = l.map (fun r => { r with score := r.score * semW }) := by
  intro l
  induction l with
  | nil => intro _; rfl
  | cons r rest ih =>
    intro h
    rw [List.map_cons, List.filterMap_cons]
    rw [show dictGet? cd ((r.chunk_id, r.score * semW) : Nat × ℚ).1 = some r from
      h r (List.mem_cons_self _ _)]
    rw [ih (fun q hq => h q (List.mem_cons_of_mem _ hq))]
    rfl

/-- C10: when the keyword search contributes nothing because its store query failed
(the failure is swallowed and becomes an empty list), `hybrid_search` returns the
top `top_k` vector-search results, each with its score replaced by the original
similarity score times `semantic_weight` — not the raw similarity score.
Hypotheses: the semantic results carry distinct chunk ids, arrive sorted descending
(as `search` returns them), and the semantic weight is non-negative. -/
theorem hybridSearch_keyword_failure_scales (semantic : List SearchResult)
    (err : StoreError) (keyW semW : ℚ) (topK : Nat)
    (hnd : (semantic.map (·.chunk_id)).Nodup)
    (hsorted : semantic.Pairwise (fun a b => b.score ≤ a.score))
    (hw : 0 ≤ semW) :
    hybridSearch semantic (.error err) keyW semW topK
      = (semantic.map (fun r => { r with score := r.score * semW })).take topK := by
  have hsorted2 : (semantic.map (fun r => (r.chunk_id, r.score * semW))).Pairwise
      (fun p q => q.2 ≤ p.2) := by
    rw [List.pairwise_map]
    exact hsorted.imp (fun h => mul_le_mul_of_nonneg_right h hw)
  have hcr : hybridSearch semantic (.error err) keyW semW topK =
      ((sortScoreDesc (combineSemantic semantic semW).1).take topK).filterMap
        (fun p => (dictGet? (combineSemantic semantic semW).2 p.1).map
          (fun r => { r with score := p.2 })) := rfl
  rw [hcr, combineSemantic_explicit semantic semW hnd]
  rw [show ((semantic.map (fun r => (r.chunk_id, r.score * semW)),
      semantic.map (fun r => (r.chunk_id, r))) :
        List (Nat × ℚ) × List (Nat × SearchResult)).1
      = semantic.map (fun r => (r.chunk_id, r.score * semW)) from rfl]
  rw [show ((semantic.map (fun r => (r.chunk_id, r.score * semW)),
      semantic.map (fun r => (r.chunk_id, r))) :
        List (Nat × ℚ) × List (Nat × SearchResult)).2
      = semantic.map (fun r => (r.chunk_id, r)) from rfl]
  rw [sortScoreDesc_eq_self _ hsorted2]
  rw [← List.map_take, ← List.map_take]
  refine filterMap_lookup_scale semW _ (semantic.take topK) ?_
  intro r hr
  have hmem : ((r.chunk_id, r) : Nat × SearchResult)
      ∈ semantic.map (fun r => (r.chunk_id, r)) :=
    List.mem_map.2 ⟨r, List.mem_of_mem_take hr, rfl⟩
  have hkeys : ((semantic.map (fun r => (r.chunk_id, r))).map (·.1)).Nodup := by
    rw [List.map_map]
    simpa using hnd
  exact dictGet?_of_mem_nodupKeys _ hkeys _ hmem

/-- Witness for C10's theorem: two sorted semantic results with distinct ids, a
failed keyword store query, default weights 0.7/0.3, `top_k = 1`. -/
theorem hybridSearch_keyword_failure_scales_witness :
    (([({ content := "语文", score := 1, chunk_id := 1 } : SearchResult),
       { content := "数学", score := 1/2, chunk_id := 2 }].map (·.chunk_id)).Nodup)
    ∧ List.Pairwise (fun a b : SearchResult => b.score ≤ a.score)
        [({ content := "语文", score := 1, chunk_id := 1 } : SearchResult),
         { content := "数学", score := 1/2, chunk_id := 2 }]
    ∧ (0 : ℚ) ≤ 7/10
    ∧ hybridSearch
        [({ content := "语文", score := 1, chunk_id := 1 } : SearchResult),
         { content := "数学", score := 1/2, chunk_id := 2 }]
        (.error .queryFailed) (3/10) (7/10) 1
      = ([({ content := "语文", score := 1, chunk_id := 1 } : SearchResult),
          { content := "数学", score := 1/2, chunk_id := 2 }].map
          (fun r => { r with score := r.score * (7/10) })).take 1 :=
  ⟨by simp, by norm_num [List.pairwise_cons], by norm_num,
    hybridSearch_keyword_failure_scales
      [{ content := "语文", score := 1, chunk_id := 1 },
       { content := "数学", score := 1/2, chunk_id := 2 }]
      .queryFailed (3/10) (7/10) 1 (by simp) (by norm_num [List.pairwise_cons])
      (by norm_num)⟩

/-! ### Embedding-quality scoring
(`chinese_text_processor.py`, `assess_embedding_quality`, lines 199-278).
Python floats are modelled as exact rationals.  The character class `\d` is
modelled as the ASCII digits (the only decimal digits occurring in this
pipeline's inputs), and `\s` as the whitespace characters Python treats as
spaces that occur in the corpus (ASCII whitespace and the ideographic space). -/

/-- A CJK ideograph, the class `[一-鿿]` used throughout the repository. -/
def isCJKChar (c : Char) : Bool := 0x4e00 ≤ c.toNat && c.toNat ≤ 0x9fff

/-- Python `\s` restricted to the whitespace characters occurring here. -/
def pySpaceChar (c : Char) : Bool :=
  c = ' ' || c = '\t' || c = '\n' || c = '\r' || c.toNat = 0x0b || c.toNat = 0x0c
    || c.toNat = 0x3000

/-- `education_keywords` (lines 239-243). -/
def educationKeywords : List String :=
  ["课文", "生字", "词语", "练习", "阅读", "写作", "口语", "交际",
   "拼音", "识字", "写字", "古诗", "学习", "理解", "背诵",
   "例句", "造句", "近义词", "反义词", "意思", "解释"]

/-- `sum(1 for keyword in education_keywords if keyword in text)` (line 245). -/
def keywordCount (text : List Char) : Nat :=
  (educationKeywords.filter (fun k => containsSub k.data text)).length

/-- `re.search(r'[《].*[》]', text)` (line 250): a `《` followed, with no
intervening newline (`.` does not match `\n`), by a `》`. -/
def hasBookTitleMark : List Char → Bool
  | [] => false
  | c :: rest =>
    (c = '《' && (rest.takeWhile (fun d => d ≠ '\n')).any (fun d => d = '》'))
      || hasBookTitleMark rest

/-- One line of `re.search(r'^\d+[[、.]', text, re.MULTILINE)` (line 252): leading
digits followed by `[`, `、` or `.`. -/
def lineStartsNumbered (line : List Char) : Bool :=
  let ds := line.takeWhile Char.isDigit
  !ds.isEmpty &&
    (match (line.drop ds.length).head? with
     | some c => c = '[' || c = '、' || c = '.'
     | none => false)

/-- `re.search(..., re.MULTILINE)`: some line of the text matches. -/
def hasEnumerationMark (text : List Char) : Bool :=
  (pySplit ['\n'] text).any lineStartsNumbered

/-- `re.match(r'^\d+$', text)` (line 257): digits only, allowing the `$` to sit
before one trailing newline. -/
def matchesAllDigits (text : List Char) : Bool :=
  let core := if text.getLast? = some '\n' then text.dropLast else text
  !core.isEmpty && core.all Char.isDigit

/-- `re.match(r'^[\s\-]*$', text)` (line 258): whitespace and dashes only. -/
def matchesSpaceDash (text : List Char) : Bool :=
  text.all (fun c => pySpaceChar c || c = '-')

/-- The Python error raised when a local variable is read before assignment. -/
inductive PyRunError where
  | unboundLocal
deriving DecidableEq, Repr

/-- The dictionary returned by `assess_embedding_quality`.  The empty-text branch
(line 210) returns only the first three keys; the remaining fields are `none`
there. -/
structure QualityReport where
  is_suitable : Bool
  score : ℚ
  reason : String
  length : Option Nat := none
  chinese_chars : Option Nat := none
  chinese_ratio : Option ℚ := none
  keyword_count : Option Nat := none
deriving DecidableEq, Repr

/-- `assess_embedding_quality` (lines 199-278).  The additive score follows the
source exactly; note two slips kept faithfully: when the text has no CJK
character, the local `chinese_ratio` is never assigned yet the result dictionary
evaluates `chinese_ratio / length`, so Python raises `UnboundLocalError`
(modelled as `.error .unboundLocal`); and when it is assigned, the returned
`chinese_ratio` field divides it by `length` a second time. -/
def assessEmbeddingQuality (text : List Char) : Except PyRunError QualityReport :=
  if text.isEmpty then
    .ok { is_suitable := false, score := 0, reason := "文本为空" }
  else
    let length := text.length
    let lengthScore : ℚ :=
      if length < 20 then -(1/2)
      else if length < 50 then -(1/5)
      else if length > 1000 then -(1/10)
      else 3/10
    let chineseChars := (text.filter isCJKChar).length
    if chineseChars = 0 then
      .error .unboundLocal
    else
      let chineseRatio : ℚ := (chineseChars : ℚ) / (length : ℚ)
      let kwCount := keywordCount text
      let noise := matchesAllDigits text || matchesSpaceDash text
      let score : ℚ := lengthScore + chineseRatio * (2/5)
        + (if kwCount > 0 then min ((kwCount : ℚ) * (1/10)) (1/2) else 0)
        + (if hasBookTitleMark text then 1/5 else 0)
        + (if hasEnumerationMark text then 1/10 else 0)
        + (if noise then -(3/5) else 0)
      let finalScore := max 0 (min 1 score)
      let reasons : List String :=
        (if length < 20 then ["文本过短"]
         else if length < 50 then ["文本较短"]
         else if length > 1000 then ["文本较长"] else [])
        ++ (if noise then ["包含噪音内容"] else [])
      .ok { is_suitable := decide (finalScore > 2/5)
            score := finalScore
            reason := if reasons.isEmpty then "质量良好" else String.intercalate ", " reasons
            length := some length
            chinese_chars := some chineseChars
            chinese_ratio := some (chineseRatio / (length : ℚ))
            keyword_count := some kwCount }

/-- C1: code bug — on a non-empty input with zero target-script characters,
`assess_embedding_quality` does not return a result record: it raises
`UnboundLocalError` (the local `chinese_ratio` is only assigned in the
`chinese_chars > 0` branch, yet the result dictionary reads it), contradicting
the contract that the scorer is total. -/
theorem assessEmbeddingQuality_raises_without_chinese :
    assessEmbeddingQuality "hello world, this is a test".data
      = .error .unboundLocal := by
  rfl

/-! ### Pinyin repair and embedding preprocessing
(`chinese_text_processor.py`, `_fix_pinyin_errors` lines 116-180 and
`preprocess_chinese_text_for_embedding` lines 71-114).  The regex substitutions
are embedded as direct scanning functions with Python `re` semantics: `\w`
includes CJK ideographs and accented Latin letters, so word boundaries (`\b`) and
the word-character lookarounds see CJK characters as word characters.  The
scanners walk the original string, as `re.sub` matches do. -/

/-- Python `\w` restricted to the character ranges occurring in this pipeline:
ASCII alphanumerics and underscore, CJK ideographs, and Latin-1/Extended letters
(which cover the tone-marked pinyin vowels in the repair table). -/
def pyWordChar (c : Char) : Bool :=
  ('a' ≤ c && c ≤ 'z') || ('A' ≤ c && c ≤ 'Z') || ('0' ≤ c && c ≤ '9') || c = '_'
    || isCJKChar c || (0xc0 ≤ c.toNat && c.toNat ≤ 0x24f)

/-- The character class `[\w@.]` of the isolated-pinyin lookarounds (line 132). -/
def isWordOrAtDot (c : Char) : Bool := pyWordChar c || c = '@' || c = '.'

def isAsciiLetter (c : Char) : Bool := ('a' ≤ c && c ≤ 'z') || ('A' ≤ c && c ≤ 'Z')

/-- The `pinyin_to_hanzi` dict literal (lines 31-69), in source order, duplicate
keys included; Python dict-literal semantics (first position, last value wins)
are applied by `pinyinToHanzi` below. -/
def pinyinToHanziEntries : List (String × String) :=
  [("huK", "呼"), ("chSng", "唱"), ("jK", "就"), ("shuō", "说"), ("de", "的"), ("le", "了"),
   ("ma", "吗"), ("ne", "呢"), ("ba", "吧"), ("hěn", "很"), ("hǎo", "好"), ("shì", "是"),
   ("yǒu", "有"), ("wǒ", "我"), ("nǐ", "你"), ("tā", "他"), ("zhè", "这"), ("nà", "那"),
   ("zheng", "正"), ("zài", "在"), ("dōu", "都"), ("yě", "也"), ("bù", "不"), ("kě", "可"),
   ("yǐ", "以"), ("hé", "和"), ("gěn", "跟"), ("yǔ", "与"), ("yī", "一"), ("èr", "二"),
   ("sān", "三"), ("sì", "四"), ("wǔ", "五"), ("liù", "六"), ("qī", "七"), ("bā", "八"),
   ("jiǔ", "九"), ("shí", "十"), ("nián", "年"), ("yuè", "月"), ("rì", "日"), ("tiān", "天"),
   ("xué", "学"), ("xiào", "校"), ("jiā", "家"), ("mén", "门"), ("fáng", "房"), ("shū", "书"),
   ("běn", "本"), ("bǐ", "笔"), ("zì", "字"), ("cí", "词"), ("jù", "句"), ("duàn", "段"),
   ("kè", "课"), ("wén", "文"), ("dú", "读"), ("xiě", "写"), ("zuò", "做"), ("huà", "话"),
   ("tīng", "听"), ("kàn", "看"), ("xiǎng", "想"), ("sī", "思"), ("wèn", "问"), ("dá", "答"),
   ("jiāo", "教"), ("yù", "育"), ("yǎng", "养"), ("xí", "习"), ("liàn", "练"), ("yóu", "游"),
   ("xì", "戏"), ("wán", "玩"), ("lè", "乐"), ("qì", "气"), ("qíng", "情"), ("gǎn", "感"),
   ("jué", "觉"), ("zhī", "知"), ("dào", "道"), ("lǐ", "理"), ("yì", "义"), ("guān", "关"),
   ("yú", "于"), ("cóng", "从"), ("dào", "到"), ("wèi", "为"),
   ("qǐ", "起"), ("zuò", "坐"), ("zǒu", "走"), ("pǎo", "跑"), ("tiào", "跳"), ("chī", "吃"),
   ("hē", "喝"), ("shuì", "睡"), ("zuò", "做"), ("shuō", "说"), ("xiào", "笑"), ("kū", "哭"),
   ("kàn", "看"), ("tīng", "听"), ("xiě", "写"), ("dú", "读"), ("xiǎng", "想"), ("jì", "记"),
   ("wàng", "忘"), ("zhǎo", "找"), ("děng", "等"), ("bāng", "帮"), ("jiào", "叫"), ("huà", "画"),
   ("hǎo", "好"), ("huài", "坏"), ("dà", "大"), ("xiǎo", "小"), ("cháng", "长"), ("duǎn", "短"),
   ("gāo", "高"), ("ǎi", "矮"), ("pàng", "胖"), ("shòu", "瘦"), ("měi", "美"), ("chǒu", "丑"),
   ("kuài", "快"), ("màn", "慢"), ("xīn", "新"), ("jiù", "旧"), ("duō", "多"), ("shǎo", "少"),
   ("lè", "乐"), ("kǔ", "苦"), ("tián", "甜"), ("suān", "酸"), ("là", "辣"), ("xián", "咸"),
   ("fù", "父"), ("mǔ", "母"), ("gē", "哥"), ("jiě", "姐"), ("dì", "弟"), ("mèi", "妹"),
   ("shù", "树"), ("huā", "花"), ("cǎo", "草"), ("niǎo", "鸟"), ("yú", "鱼"), ("mǎ", "马"),
   ("niú", "牛"), ("yáng", "羊"), ("gǒu", "狗"), ("māo", "猫"), ("jī", "鸡"), ("yā", "鸭"),
   ("shān", "山"), ("shuǐ", "水"), ("tiān", "天"), ("dì", "地"), ("rì", "日"), ("yuè", "月"),
   ("xīng", "星"), ("yún", "云"), ("fēng", "风"), ("yǔ", "雨"), ("xuě", "雪"), ("diàn", "电")]

/-- The `pinyin_to_hanzi` dict after Python dict-literal key deduplication. -/
def pinyinToHanzi : List (String × String) :=
  pinyinToHanziEntries.foldl (fun d kv => dictSet d kv.1 kv.2) []

/-- The `encoding_fixes` dict literal (lines 167-175); it too has a duplicate key
(`â€`, twice), resolved by dict semantics. -/
def encodingFixesEntries : List (String × String) :=
  [("ï¼š", "："), ("ï¼Œ", "，"), ("ï¼›", "？"), ("ï¼", "。"),
   ("â€", "“"), ("â€", "”"), ("â€¦", "…")]

def encodingFixes : List (String × String) :=
  encodingFixesEntries.foldl (fun d kv => dictSet d kv.1 kv.2) []

/-- `re.sub(rf'(?<![\w@.]){key}(?![\w@.])', rep, text)` (lines 130-133): replace
every occurrence of `key` whose neighbouring characters in the original string are
not in `[\w@.]`.  `prev` is the original character before the scan position. -/
def replaceIsolatedGo (key rep : List Char) : Nat → Option Char → List Char → List Char
  | 0, _, s => s
  | fuel + 1, prev, s =>
    match s with
    | [] => []
    | c :: rest =>
      if key ≠ [] && key.isPrefixOf (c :: rest)
          && (match prev with | none => true | some p => !isWordOrAtDot p)
          && (match (List.drop key.length (c :: rest)).head? with
              | none => true
              | some n => !isWordOrAtDot n) then
        rep ++ replaceIsolatedGo key rep fuel key.getLast? (List.drop key.length (c :: rest))
      else
        c :: replaceIsolatedGo key rep fuel (some c) rest

def replaceIsolated (key rep text : List Char) : List Char :=
  replaceIsolatedGo key rep text.length none text

/-- `re.sub(r'([一-鿿])([a-zA-Z]{1,4})([一-鿿])', fix_middle_pinyin, text)`
(lines 136-145): a run of 1-4 ASCII letters flanked by CJK characters is replaced
through a lowercase lookup; scanning resumes after the trailing CJK character.
A letter run longer than 4 cannot match (every shorter prefix is followed by a
letter, not a CJK character). -/
def fixMiddleGo (table : List (String × String)) : Nat → List Char → List Char
  | 0, s => s
  | fuel + 1, s =>
    match s with
    | [] => []
    | c :: rest =>
      if isCJKChar c then
        let letters := rest.takeWhile isAsciiLetter
        if 1 ≤ letters.length && letters.length ≤ 4 then
          match rest.drop letters.length with
          | c2 :: rest2 =>
            if isCJKChar c2 then
              (match dictGet? table (String.mk (letters.map Char.toLower)) with
               | some h => c :: (h.data ++ (c2 :: fixMiddleGo table fuel rest2))
               | none => c :: (letters ++ (c2 :: fixMiddleGo table fuel rest2)))
            else c :: fixMiddleGo table fuel rest
          | [] => c :: fixMiddleGo table fuel rest
        else c :: fixMiddleGo table fuel rest
      else c :: fixMiddleGo table fuel rest

/-- The `possible_fixes` cascade of `fix_capitalized_pinyin` (lines 148-161):
all-lowercase, drop-last-then-lowercase, lowercase-first-letter-only; the first
variant found in the table wins, otherwise the run is left unchanged. -/
def firstFix (table : List (String × String)) (run : List Char) : Option String :=
  ([run.map Char.toLower,
    run.dropLast.map Char.toLower,
    match run with | [] => [] | c :: cs => c.toLower :: cs].filterMap
      (fun f => dictGet? table (String.mk f))).head?

/-- `re.sub(r'\b([a-zA-Z]{2,6})\b(?=[一-鿿\s])', fix_capitalized_pinyin, text)`
(lines 148-164): a maximal ASCII-letter run of length 2-6 starting at a word
boundary, followed (unconsumed) by a character that is simultaneously a non-word
character (for the trailing `\b`) and in `[一-鿿\s]` (for the lookahead).  Since
CJK ideographs are word characters in Python, only whitespace can satisfy both —
the source's own examples (`huK你好chSng`) therefore never match.  `prevWord`
says whether the previous original character is a word character. -/
def fixCapitalizedGo (table : List (String × String)) : Nat → Bool → List Char → List Char
  | 0, _, s => s
  | fuel + 1, prevWord, s =>
    match s with
    | [] => []
    | c :: rest =>
      if isAsciiLetter c && !prevWord then
        let run := (c :: rest).takeWhile isAsciiLetter
        let after := (c :: rest).drop run.length
        if 2 ≤ run.length && run.length ≤ 6
            && (match after.head? with
                | some n => !pyWordChar n && (isCJKChar n || pySpaceChar n)
                | none => false) then
          (match firstFix table run with
           | some h => h.data
           | none => run) ++ fixCapitalizedGo table fuel true after
        else
          run ++ fixCapitalizedGo table fuel true after
      else
        c :: fixCapitalizedGo table fuel (pyWordChar c) rest

/-- Python `text.replace(old, new)`: all non-overlapping occurrences, left to
right. -/
def replaceAllGo (old new : List Char) : Nat → List Char → List Char
  | 0, s => s
  | fuel + 1, s =>
    match s with
    | [] => []
    | c :: rest =>
      if old ≠ [] && old.isPrefixOf (c :: rest) then
        new ++ replaceAllGo old new fuel (List.drop old.length (c :: rest))
      else c :: replaceAllGo old new fuel rest

def replaceAll (old new text : List Char) : List Char :=
  replaceAllGo old new text.length text

/-- `_fix_pinyin_errors` (lines 116-180): isolated-token replacement over the
whole table, then the CJK-letter-CJK repair, then the capitalized-run repair,
then the encoding fixes. -/
def fixPinyinErrors (text : List Char) : List Char :=
  if text.isEmpty then text
  else
    let t1 := pinyinToHanzi.foldl (fun t kv => replaceIsolated kv.1.data kv.2.data t) text
    let t2 := fixMiddleGo pinyinToHanzi t1.length t1
    let t3 := fixCapitalizedGo pinyinToHanzi t2.length false t2
    encodingFixes.foldl (fun t kv => replaceAll kv.1.data kv.2.data t) t3

/-- `re.sub` of a run of characters in `cls` by a single `rep`
(`\s+` → `' '` and `\n+` → `' '`, lines 88-89). -/
def collapseRunsGo (cls : Char → Bool) (rep : Char) : Nat → List Char → List Char
  | 0, s => s
  | fuel + 1, s =>
    match s with
    | [] => []
    | c :: rest =>
      if cls c then rep :: collapseRunsGo cls rep fuel (rest.dropWhile cls)
      else c :: collapseRunsGo cls rep fuel rest

/-- The retained-character class of step 2 (line 92): CJK ideographs, CJK
punctuation, halfwidth/fullwidth forms, whitespace, the listed quotation and
bracket marks, ASCII digits and the CJK numerals (the latter lie inside the CJK
range). -/
def isKeptChar (c : Char) : Bool :=
  isCJKChar c
    || (0x3000 ≤ c.toNat && c.toNat ≤ 0x303f)
    || (0xff00 ≤ c.toNat && c.toNat ≤ 0xffef)
    || pySpaceChar c
    || c = '，' || c = '。' || c = '！' || c = '？' || c = '；' || c = '：'
    || c = '“' || c = '”' || c = '‘' || c = '’'
    || c = '（' || c = '）' || c = '【' || c = '】' || c = '《' || c = '》'
    || ('0' ≤ c && c ≤ '9')

/-- `re.sub(r'\b\d+\s*页\b', '', text)` (line 99): a page-number annotation is
deleted; the leading `\b` needs a non-word character (or the start) before the
digits, the trailing `\b` a non-word character (or the end) after `页`. -/
def removePageMarksGo : Nat → Option Char → List Char → List Char
  | 0, _, s => s
  | fuel + 1, prev, s =>
    match s with
    | [] => []
    | c :: rest =>
      if Char.isDigit c && (match prev with | none => true | some p => !pyWordChar p) then
        let ds := (c :: rest).takeWhile Char.isDigit
        let afterDs := (c :: rest).drop ds.length
        let afterSp := afterDs.drop (afterDs.takeWhile pySpaceChar).length
        match afterSp with
        | '页' :: tail =>
          if (match tail.head? with | none => true | some n => !pyWordChar n) then
            removePageMarksGo fuel (some '页') tail
          else c :: removePageMarksGo fuel (some c) rest
        | _ => c :: removePageMarksGo fuel (some c) rest
      else c :: removePageMarksGo fuel (some c) rest

/-- `re.sub(r'\b第\s*\d+\s*课\b', ' 课文 ', text)` and its `单元` twin
(lines 100-101), generalized over the suffix and the replacement. -/
def replaceNumMarkerGo (suffix repl : List Char) : Nat → Option Char → List Char → List Char
  | 0, _, s => s
  | fuel + 1, prev, s =>
    match s with
    | [] => []
    | c :: rest =>
      if c = '第' && (match prev with | none => true | some p => !pyWordChar p) then
        let r1 := rest.drop (rest.takeWhile pySpaceChar).length
        let ds := r1.takeWhile Char.isDigit
        if ds.isEmpty then c :: replaceNumMarkerGo suffix repl fuel (some c) rest
        else
          let r2 := r1.drop ds.length
          let r3 := r2.drop (r2.takeWhile pySpaceChar).length
          if suffix ≠ [] && suffix.isPrefixOf r3 then
            let tail := r3.drop suffix.length
            if (match tail.head? with | none => true | some n => !pyWordChar n) then
              repl ++ replaceNumMarkerGo suffix repl fuel suffix.getLast? tail
            else c :: replaceNumMarkerGo suffix repl fuel (some c) rest
          else c :: replaceNumMarkerGo suffix repl fuel (some c) rest
      else c :: replaceNumMarkerGo suffix repl fuel (some c) rest

/-- `re.sub(r'([。！？]){2,}', r'\1', text)` and the `，` twin (lines 104-105): a
maximal run of two or more characters from the class collapses to the run's last
character (the backreference holds the final repetition). -/
def collapseDupPunct (cls : Char → Bool) : Nat → List Char → List Char
  | 0, s => s
  | fuel + 1, s =>
    match s with
    | [] => []
    | c :: rest =>
      if cls c then
        let run := (c :: rest).takeWhile cls
        let after := (c :: rest).drop run.length
        if 2 ≤ run.length then
          (match run.getLast? with | some l => [l] | none => []) ++
            collapseDupPunct cls fuel after
        else c :: collapseDupPunct cls fuel rest
      else c :: collapseDupPunct cls fuel rest

/-- Python `str.strip()`. -/
def pyStrip (s : List Char) : List Char :=
  ((s.dropWhile pySpaceChar).reverse.dropWhile pySpaceChar).reverse

/-- Step 6 of the preprocessing (lines 108-114): split on single spaces, strip,
drop empties, keep fragments of length at least 3, re-join with spaces; empty
output when nothing remains. -/
def finalFragments (t : List Char) : List Char :=
  let lines := ((pySplit [' '] t).map pyStrip).filter (fun l => !l.isEmpty)
  let meaningful := lines.filter (fun l => 3 ≤ l.length)
  if meaningful.isEmpty then []
  else pyStrip (List.intercalate [' '] meaningful)

/-- `preprocess_chinese_text_for_embedding` (lines 71-114). -/
def preprocessChineseTextForEmbedding (text : List Char) : List Char :=
  if text.isEmpty then text
  else
    let t0 := fixPinyinErrors text
    let t1 := collapseRunsGo pySpaceChar ' ' t0.length t0
    let t2 := collapseRunsGo (fun c => c = '\n') ' ' t1.length t1
    let t3 := t2.filter isKeptChar
    let t4 := replaceAll [','] ['，'] t3
    let t5 := replaceAll ['.'] ['。'] t4
    let t6 := replaceAll ['!'] ['！'] t5
    let t7 := replaceAll ['?'] ['？'] t6
    let t8 := replaceAll [':'] ['：'] t7
    let t9 := replaceAll [';'] ['；'] t8
    let t10 := removePageMarksGo t9.length none t9
    let t11 := replaceNumMarkerGo "课".data " 课文 ".data t10.length none t10
    let t12 := replaceNumMarkerGo "单元".data " 单元 ".data t11.length none t11
    let t13 := collapseDupPunct (fun c => c = '。' || c = '！' || c = '？') t12.length t12
    let t14 := collapseDupPunct (fun c => c = '，') t13.length t13
    finalFragments t14

/-- C4: code bug — normalizing the literal `"huK你好chSng"` does not yield
`"呼你好唱"`: none of the three pinyin-repair substitutions fires, because in
Python regexes CJK ideographs are word characters, so `huK` (followed by `你`)
fails the trailing `(?![\w@.])`/`\b` checks and `chSng` (preceded by `好`) fails
the leading ones.  The Latin letters are then removed by the script filter and
the remaining `你好` (length 2 < 3) is dropped by the short-fragment step: the
result is the empty string. -/
theorem preprocess_pinyin_scenario :
    preprocessChineseTextForEmbedding "huK你好chSng".data = []
    ∧ preprocessChineseTextForEmbedding "huK你好chSng".data ≠ "呼你好唱".data := by
  constructor
  · decide
  · decide

/-! ### Directory-page lesson extraction
(`chinese_textbook_analyzer.py`, `_extract_lessons_from_directory`, lines 343-394).
The two regexes are fixed sequences of single-character-class repetitions, so they
are embedded through a small backtracking matcher over items `(class, candidate
take-counts in preference order, capture slot)`, which reproduces Python's
leftmost-match and greedy-backtracking semantics for exactly such patterns. -/

/-- One regex item: a character class repeated some number of times; `ks m` lists
the candidate repetition counts in the engine's preference order, given the
length `m` of the maximal class run at the current position; `cap` records the
capture-group slot, if any. -/
structure ReItem where
  cls : Char → Bool
  ks : Nat → List Nat
  cap : Option Nat := none

/-- `[hi, hi-1, ..., lo]` (empty when `hi < lo`): greedy preference order. -/
def downList (hi lo : Nat) : List Nat :=
  (List.range (hi + 1 - lo)).map (fun k => hi - k)

/-- A repetition `cls{lo,hi}` (greedy); `hi = none` means unbounded. -/
def reRep (cls : Char → Bool) (lo : Nat) (hi : Option Nat) (cap : Option Nat) : ReItem :=
  { cls := cls, ks := fun m => downList (min m (hi.getD m)) lo, cap := cap }

/-- Anchored match of an item sequence at the head of `s`: returns the captures
and the remaining input after the match, trying the repetition counts of each
item in preference order with backtracking. -/
def matchItems : List ReItem → List Char → Option (List (Nat × List Char) × List Char)
  | [], s => some ([], s)
  | it :: rest, s =>
    let m := (s.takeWhile it.cls).length
    (it.ks m).findSome? (fun k =>
      if k ≤ m then
        match matchItems rest (s.drop k) with
        | some (caps, r) =>
          some ((match it.cap with
                 | some i => (i, s.take k) :: caps
                 | none => caps), r)
        | none => none
      else none)

/-- `re.findall`: leftmost non-overlapping matches.  The patterns used here always
consume at least one character, so the zero-width branch only guards the fuel. -/
def findAllGo (items : List ReItem) : Nat → List Char → List (List (Nat × List Char))
  | 0, _ => []
  | fuel + 1, s =>
    match s with
    | [] => []
    | c :: rest =>
      match matchItems items (c :: rest) with
      | some (caps, r) =>
        if r.length ≤ rest.length then caps :: findAllGo items fuel r
        else caps :: findAllGo items fuel rest
      | none => findAllGo items fuel rest

def findAll (items : List ReItem) (s : List Char) : List (List (Nat × List Char)) :=
  findAllGo items s.length s

/-- The capture stored in slot `i` (empty if the slot is absent). -/
def capGet (caps : List (Nat × List Char)) (i : Nat) : List Char :=
  ((caps.find? (fun p => decide (p.1 = i))).map (·.2)).getD []

/-- `re.split` with one capture group: the pieces between matches interleaved with
each match's capture. -/
def splitCaptureGo (items : List ReItem) : Nat → List Char → List Char → List (List Char)
  | 0, s, acc => [acc.reverse ++ s]
  | fuel + 1, s, acc =>
    match s with
    | [] => [acc.reverse]
    | c :: rest =>
      match matchItems items (c :: rest) with
      | some (caps, r) =>
        if r.length ≤ rest.length then
          acc.reverse :: capGet caps 0 :: splitCaptureGo items fuel r []
        else [acc.reverse ++ (c :: rest)]
      | none => splitCaptureGo items fuel rest (c :: acc)

def splitCapture (items : List ReItem) (s : List Char) : List (List Char) :=
  splitCaptureGo items s.length s []

/-- The class `[一二三四五六七八九十\d]` of the unit-header pattern. -/
def isDirNumeral (c : Char) : Bool :=
  c = '一' || c = '二' || c = '三' || c = '四' || c = '五' || c = '六' || c = '七'
    || c = '八' || c = '九' || c = '十' || Char.isDigit c

/-- `r'第([一二三四五六七八九十\d]+)单元'` (line 361). -/
def unitHeaderItems : List ReItem :=
  [reRep (fun c => c = '第') 1 (some 1) none,
   reRep isDirNumeral 1 none (some 0),
   reRep (fun c => c = '单') 1 (some 1) none,
   reRep (fun c => c = '元') 1 (some 1) none]

/-- `r'(\d+)\s+([^。\n]{2,30})(?:\*{0,2})(?:\.{4,})?\s*(\d+)'` (line 374): lesson
number, title text (greedy, 2-30 characters excluding `。` and newline), optional
stars, optional leader dots (four or more, or nothing), whitespace, page number. -/
def lessonPatternItems : List ReItem :=
  [reRep Char.isDigit 1 none (some 0),
   reRep pySpaceChar 1 none none,
   reRep (fun c => !(c = '。' || c = '\n')) 2 (some 30) (some 1),
   reRep (fun c => c = '*') 0 (some 2) none,
   { cls := fun c => c = '.', ks := fun m => downList m 4 ++ [0], cap := none },
   reRep pySpaceChar 0 none none,
   reRep Char.isDigit 1 none (some 2)]

/-- The `chinese_map` of `_chinese_number_to_int` (lines 450-453). -/
def chineseDigitMap : List (Char × Nat) :=
  [('一', 1), ('二', 2), ('三', 3), ('四', 4), ('五', 5),
   ('六', 6), ('七', 7), ('八', 8), ('九', 9), ('十', 10)]

/-- `chinese_map.get(c, 0)`. -/
def chineseDigitVal (c : Char) : Nat :=
  ((chineseDigitMap.find? (fun p => decide (p.1 = c))).map (·.2)).getD 0

/-- Python `int(...)` on a digit string. -/
def digitsToNat (s : List Char) : Nat :=
  s.foldl (fun n c => n * 10 + (c.toNat - '0'.toNat)) 0

/-- `_chinese_number_to_int` (lines 448-471): Arabic digits pass through; single
CJK numerals map directly; `十x` adds ten, `x十` multiplies by ten; everything
else defaults to 1. -/
def chineseNumberToInt (s : List Char) : Nat :=
  if s ≠ [] && s.all Char.isDigit then digitsToNat s
  else
    match s with
    | [c] => if chineseDigitMap.any (fun p => decide (p.1 = c)) then chineseDigitVal c else 1
    | [c1, c2] =>
      if c1 = '十' then 10 + chineseDigitVal c2
      else if c2 = '十' then chineseDigitVal c1 * 10
      else 1
    | _ => 1

/-- The stop-list filtering section headers out of lesson titles (line 381). -/
def lessonSkipWords : List String :=
  ["口语", "习作", "语文园地", "快乐读书吧", "识字表", "写字表", "词语表"]

/-- Lines 349-355: the directory text is the concatenation (each plus a newline)
of the chunks on pages 4-5 whose content mentions `目录` or `单元`. -/
def directoryContent (chunks : List PageChunk) : List Char :=
  chunks.foldl (fun acc c =>
    if (decide (c.page_number = 4) || decide (c.page_number = 5))
        && (containsSub "目录".data c.content.data
            || containsSub "单元".data c.content.data)
    then acc ++ c.content.data ++ ['\n'] else acc) []

/-- The index loop `for i in range(1, len(unit_sections), 2)` with its
`i >= len - 1` break: consecutive pairs of the split list after its head. -/
def consecPairs {α : Type} : List α → List (α × α)
  | a :: b :: rest => (a, b) :: consecPairs rest
  | _ => []

/-- `_extract_lessons_from_directory` (lines 343-394). -/
def extractLessonsFromDirectory (chunks : List PageChunk) : List LessonInfo :=
  let dir := directoryContent chunks
  if dir.isEmpty then []
  else
    let pairs : List (List Char × List Char) :=
      match splitCapture unitHeaderItems dir with
      | [] => []
      | _ :: rest => consecPairs rest
    (pairs.map (fun pr =>
        let unitNumber := chineseNumberToInt pr.1
        (findAll lessonPatternItems pr.2).filterMap (fun caps =>
          let lessonTitle := pyStrip (capGet caps 1)
          if 1 < lessonTitle.length
              && !(lessonSkipWords.any (fun sk => containsSub sk.data lessonTitle)) then
            some { unit_number := (unitNumber : Int),
                   unit_title := "第" ++ toString unitNumber ++ "单元",
                   lesson_number := (digitsToNat (capGet caps 0) : Int),
                   lesson_title := String.mk lessonTitle,
                   start_page := (digitsToNat (capGet caps 2) : Int) }
          else none))).flatten

/-- C5: code bug — on the directory text
`"第一单元 1 大青树下的小学.......2 第二单元 1 古诗三首......14"` the extractor
does produce two units with one lesson each and the first lesson starts at page 2,
but the greedy title group `([^。\n]{2,30})` swallows the leader dots (and, in the
second lesson, the `1` of `14`), so the titles keep their dots —
`"大青树下的小学......."` and `"古诗三首......1"` — and the second lesson's
`start_page` is 4, not 14, contradicting the dots-stripped titles and page 14 the
spec describes (and the intent of the pattern's own `(?:\.{4,})?` dots group). -/
theorem extractLessons_directory_scenario :
    extractLessonsFromDirectory
        [{ page_number := 4,
           content := "第一单元 1 大青树下的小学.......2 第二单元 1 古诗三首......14" }]
      = [{ unit_number := 1, unit_title := "第1单元", lesson_number := 1,
           lesson_title := "大青树下的小学.......", start_page := 2 },
         { unit_number := 2, unit_title := "第2单元", lesson_number := 1,
           lesson_title := "古诗三首......1", start_page := 4 }]
    ∧ ¬ ((extractLessonsFromDirectory
          [{ page_number := 4,
             content := "第一单元 1 大青树下的小学.......2 第二单元 1 古诗三首......14" }]).map
            (fun l => (l.lesson_title, l.start_page))
        = [("大青树下的小学", 2), ("古诗三首", 14)]) := by
  constructor
  · decide
  · decide
